import Mathlib

/-!
Verification development for the Kusto notebook extension.

Shallow embedding of the modules the claims concern:
* connection-token encoding (`src/extension/kusto/connections/types.ts`),
* the notebook execution kernel (`KernelPerConnection.executeCell` and the
  connection-changed handler in the kernel provider module),
* the chart-inference renderer (`getChartType`, `renderChart`,
  `generateSunburstChart`).

JavaScript runtime pieces the source leans on (JSON.parse / JSON.stringify,
base64 buffers, UTF-8 encoding, Array.prototype.sort, Map insertion order)
are modelled executably below, restricted to the value fragment this data
path actually traffics in (scalars, flat objects and scalar arrays).
-/

set_option maxHeartbeats 1600000

namespace KustoExt

/-! JavaScript value model

A two-level JSON value model: `JLit` covers scalars, `JVal` additionally
covers flat objects and scalar arrays.  Every JSON document on this code
path (connection-info tokens, chart metadata rows, tabular cells) lives in
this fragment. -/

inductive JLit where
  | jnull
  | jbool (b : Bool)
  | jnum (n : Int)
  | jstr (s : String)
  deriving Repr, DecidableEq

inductive JVal where
  | lit (l : JLit)
  | jarr (elems : List JLit)
  | jobj (fields : List (String × JLit))
  deriving Repr, DecidableEq

/-- Truthiness of a scalar, as JavaScript `if (x)` sees it. -/
def JLit.truthy : JLit → Bool
  | .jnull => false
  | .jbool b => b
  | .jnum n => n != 0
  | .jstr s => s != ""

/-- Truthiness of a JSON value; objects and arrays are always truthy. -/
def JVal.truthy : JVal → Bool
  | .lit l => l.truthy
  | .jarr _ => true
  | .jobj _ => true

/-- Property access `v.name` on a parsed JSON value: only objects yield
fields, everything else gives `undefined` (here `none`). -/
def JVal.getField (v : JVal) (name : String) : Option JLit :=
  match v with
  | .jobj fields => fields.lookup name
  | _ => none

/-- JavaScript `a || b` for an optional string operand: the empty string is
falsy, so it falls through to the default. -/
def jsOrStr (a : Option String) (b : String) : String :=
  match a with
  | some s => if s = "" then b else s
  | none => b

/-! Base64 (model of `Buffer.from(..).toString('base64')` and its inverse)

The byte-level RFC 4648 algorithm with `=` padding, over `Nat` bytes. -/

def b64alphabet : List Char :=
  "ABCDEFGHIJKLMNOPQRSTUVWXYZabcdefghijklmnopqrstuvwxyz0123456789+/".data

def b64digit (n : Nat) : Char := b64alphabet.getD n 'A'

def b64digitVal (c : Char) : Option Nat :=
  let i := b64alphabet.indexOf c
  if i < 64 then some i else none

def b64encode : List Nat → List Char
  | [] => []
  | [a] => [b64digit (a / 4), b64digit (a % 4 * 16), '=', '=']
  | [a, b] => [b64digit (a / 4), b64digit (a % 4 * 16 + b / 16), b64digit (b % 16 * 4), '=']
  | a :: b :: c :: rest =>
    b64digit (a / 4) :: b64digit (a % 4 * 16 + b / 16) :: b64digit (b % 16 * 4 + c / 64) ::
      b64digit (c % 64) :: b64encode rest

def b64decode : List Char → Option (List Nat)
  | [] => some []
  | c1 :: c2 :: c3 :: c4 :: rest =>
    if c3 = '=' ∧ c4 = '=' ∧ rest = [] then
      match b64digitVal c1, b64digitVal c2 with
      | some v1, some v2 => some [v1 * 4 + v2 / 16]
      | _, _ => none
    else if c4 = '=' ∧ rest = [] then
      match b64digitVal c1, b64digitVal c2, b64digitVal c3 with
      | some v1, some v2, some v3 => some [v1 * 4 + v2 / 16, v2 % 16 * 16 + v3 / 4]
      | _, _, _ => none
    else
      match b64digitVal c1, b64digitVal c2, b64digitVal c3, b64digitVal c4 with
      | some v1, some v2, some v3, some v4 =>
        (b64decode rest).map
          (fun tl => (v1 * 4 + v2 / 16) :: (v2 % 16 * 16 + v3 / 4) :: (v3 % 4 * 64 + v4) :: tl)
      | _, _, _, _ => none
  | _ => none

theorem b64digitVal_b64digit : ∀ n, n < 64 → b64digitVal (b64digit n) = some n := by decide

theorem b64digit_ne_eq : ∀ n, n < 64 → b64digit n ≠ '=' := by decide

theorem b64decode_b64encode :
    ∀ bs : List Nat, (∀ b ∈ bs, b < 256) → b64decode (b64encode bs) = some bs := by
  intro bs
  induction bs using b64encode.induct with
  | case1 => intro _; rfl
  | case2 a =>
    intro h
    have ha : a < 256 := h a (by simp)
    simp only [b64encode, b64decode]
    rw [if_pos (by simp), b64digitVal_b64digit _ (by omega), b64digitVal_b64digit _ (by omega)]
    simp only [Option.some.injEq, List.cons.injEq, and_true]
    omega
  | case3 a b =>
    intro h
    have ha : a < 256 := h a (by simp)
    have hb : b < 256 := h b (by simp)
    have h3 : b64digit (b % 16 * 4) ≠ '=' := b64digit_ne_eq _ (by omega)
    simp only [b64encode, b64decode]
    rw [if_neg (by simp [h3]), if_pos (by simp),
      b64digitVal_b64digit _ (by omega), b64digitVal_b64digit _ (by omega),
      b64digitVal_b64digit _ (by omega)]
    simp only [Option.some.injEq, List.cons.injEq, and_true]
    omega
  | case4 a b c rest ih =>
    intro h
    have ha : a < 256 := h a (by simp)
    have hb : b < 256 := h b (by simp)
    have hc : c < 256 := h c (by simp)
    have hrest : ∀ x ∈ rest, x < 256 := fun x hx => h x (by simp [hx])
    have h3 : b64digit (b % 16 * 4 + c / 64) ≠ '=' := b64digit_ne_eq _ (by omega)
    have h4 : b64digit (c % 64) ≠ '=' := b64digit_ne_eq _ (by omega)
    simp only [b64encode, b64decode]
    rw [if_neg (by simp [h3]), if_neg (by simp [h4]),
      b64digitVal_b64digit _ (by omega), b64digitVal_b64digit _ (by omega),
      b64digitVal_b64digit _ (by omega), b64digitVal_b64digit _ (by omega),
      ih hrest]
    simp only [Option.map_some', Option.some.injEq, List.cons.injEq, and_true]
    omega

/-! UTF-8 (model of the `Buffer` text codec), over codepoints -/

def utf8EncodeCp (n : Nat) : List Nat :=
  if n < 0x80 then [n]
  else if n < 0x800 then [0xC0 + n / 64, 0x80 + n % 64]
  else if n < 0x10000 then [0xE0 + n / 4096, 0x80 + n / 64 % 64, 0x80 + n % 64]
  else [0xF0 + n / 262144, 0x80 + n / 4096 % 64, 0x80 + n / 64 % 64, 0x80 + n % 64]

def utf8Encode (cps : List Nat) : List Nat := cps.flatMap utf8EncodeCp

def isCont (b : Nat) : Bool := 0x80 ≤ b && b < 0xC0

/-- Decode one codepoint: given the lead byte and the remaining bytes, yield
the codepoint and how many continuation bytes were consumed. -/
def utf8DecodeStep (b0 : Nat) (rest : List Nat) : Option (Nat × Nat) :=
  if b0 < 0x80 then some (b0, 0)
  else if b0 < 0xC0 then none
  else if b0 < 0xE0 then
    match rest with
    | b1 :: _ =>
      if isCont b1 then some ((b0 - 0xC0) * 64 + (b1 - 0x80), 1) else none
    | _ => none
  else if b0 < 0xF0 then
    match rest with
    | b1 :: b2 :: _ =>
      if isCont b1 && isCont b2 then
        some ((b0 - 0xE0) * 4096 + (b1 - 0x80) * 64 + (b2 - 0x80), 2)
      else none
    | _ => none
  else if b0 < 0xF8 then
    match rest with
    | b1 :: b2 :: b3 :: _ =>
      if isCont b1 && isCont b2 && isCont b3 then
        some ((b0 - 0xF0) * 262144 + (b1 - 0x80) * 4096 + (b2 - 0x80) * 64 + (b3 - 0x80), 3)
      else none
    | _ => none
  else none

/-- Fuelled decoding loop (fuel bounds the number of codepoints; one byte per
codepoint at least, so the byte count is enough fuel). -/
def utf8DecodeFuel : Nat → List Nat → Option (List Nat)
  | _, [] => some []
  | 0, _ :: _ => none
  | fuel + 1, b0 :: rest =>
    match utf8DecodeStep b0 rest with
    | some (cp, k) => (utf8DecodeFuel fuel (rest.drop k)).map (cp :: ·)
    | none => none

def utf8Decode (bs : List Nat) : Option (List Nat) := utf8DecodeFuel bs.length bs

theorem utf8EncodeCp_lt_256 {n : Nat} (h : n < 0x110000) : ∀ b ∈ utf8EncodeCp n, b < 256 := by
  intro b hb
  unfold utf8EncodeCp at hb
  split at hb
  · simp at hb; omega
  · split at hb
    · simp at hb; rcases hb with hb | hb <;> omega
    · split at hb
      · simp at hb; rcases hb with hb | hb | hb <;> omega
      · simp at hb; rcases hb with hb | hb | hb | hb <;> omega

theorem utf8DecodeFuel_encodeCp {n : Nat} (h : n < 0x110000) (fuel : Nat) (tl : List Nat) :
    utf8DecodeFuel (fuel + 1) (utf8EncodeCp n ++ tl) = (utf8DecodeFuel fuel tl).map (n :: ·) := by
  unfold utf8EncodeCp
  by_cases h1 : n < 0x80
  · rw [if_pos h1]
    rw [show ([n] ++ tl) = n :: tl from rfl, utf8DecodeFuel]
    rw [show utf8DecodeStep n tl = some (n, 0) from by unfold utf8DecodeStep; rw [if_pos h1]]
    simp
  · rw [if_neg h1]
    by_cases h2 : n < 0x800
    · rw [if_pos h2]
      rw [show ([0xC0 + n / 64, 0x80 + n % 64] ++ tl) = (0xC0 + n / 64) :: (0x80 + n % 64) :: tl
          from rfl, utf8DecodeFuel]
      rw [show utf8DecodeStep (0xC0 + n / 64) ((0x80 + n % 64) :: tl) =
          some ((0xC0 + n / 64 - 0xC0) * 64 + (0x80 + n % 64 - 0x80), 1) from by
        unfold utf8DecodeStep
        rw [if_neg (by omega), if_neg (by omega), if_pos (by omega)]
        simp only [isCont]
        rw [if_pos (by simp; omega)]]
      have he : (0xC0 + n / 64 - 0xC0) * 64 + (0x80 + n % 64 - 0x80) = n := by omega
      rw [he]
      simp
    · rw [if_neg h2]
      by_cases h3 : n < 0x10000
      · rw [if_pos h3]
        rw [show ([0xE0 + n / 4096, 0x80 + n / 64 % 64, 0x80 + n % 64] ++ tl) =
            (0xE0 + n / 4096) :: (0x80 + n / 64 % 64) :: (0x80 + n % 64) :: tl from rfl,
          utf8DecodeFuel]
        rw [show utf8DecodeStep (0xE0 + n / 4096) ((0x80 + n / 64 % 64) :: (0x80 + n % 64) :: tl) =
            some ((0xE0 + n / 4096 - 0xE0) * 4096 + (0x80 + n / 64 % 64 - 0x80) * 64 +
              (0x80 + n % 64 - 0x80), 2) from by
          unfold utf8DecodeStep
          rw [if_neg (by omega), if_neg (by omega), if_neg (by omega), if_pos (by omega)]
          simp only [isCont]
          rw [if_pos (by simp; omega)]]
        have he : (0xE0 + n / 4096 - 0xE0) * 4096 + (0x80 + n / 64 % 64 - 0x80) * 64 +
            (0x80 + n % 64 - 0x80) = n := by omega
        rw [he]
        simp
      · rw [if_neg h3]
        rw [show ([0xF0 + n / 262144, 0x80 + n / 4096 % 64, 0x80 + n / 64 % 64, 0x80 + n % 64]
            ++ tl) = (0xF0 + n / 262144) :: (0x80 + n / 4096 % 64) :: (0x80 + n / 64 % 64) ::
            (0x80 + n % 64) :: tl from rfl, utf8DecodeFuel]
        rw [show utf8DecodeStep (0xF0 + n / 262144)
            ((0x80 + n / 4096 % 64) :: (0x80 + n / 64 % 64) :: (0x80 + n % 64) :: tl) =
            some ((0xF0 + n / 262144 - 0xF0) * 262144 + (0x80 + n / 4096 % 64 - 0x80) * 4096 +
              (0x80 + n / 64 % 64 - 0x80) * 64 + (0x80 + n % 64 - 0x80), 3) from by
          unfold utf8DecodeStep
          rw [if_neg (by omega), if_neg (by omega), if_neg (by omega), if_neg (by omega),
            if_pos (by omega)]
          simp only [isCont]
          rw [if_pos (by simp; omega)]]
        have he : (0xF0 + n / 262144 - 0xF0) * 262144 + (0x80 + n / 4096 % 64 - 0x80) * 4096 +
            (0x80 + n / 64 % 64 - 0x80) * 64 + (0x80 + n % 64 - 0x80) = n := by omega
        rw [he]
        simp

theorem utf8DecodeFuel_utf8Encode :
    ∀ (cps : List Nat) (fuel : Nat), cps.length ≤ fuel → (∀ c ∈ cps, c < 0x110000) →
      utf8DecodeFuel fuel (utf8Encode cps) = some cps := by
  intro cps
  induction cps with
  | nil => intro fuel _ _; cases fuel <;> rfl
  | cons c rest ih =>
    intro fuel hfuel h
    have hc : c < 0x110000 := h c (by simp)
    have hrest : ∀ x ∈ rest, x < 0x110000 := fun x hx => h x (by simp [hx])
    obtain ⟨f, rfl⟩ : ∃ f, fuel = f + 1 := by
      cases fuel with
      | zero => simp at hfuel
      | succ f => exact ⟨f, rfl⟩
    show utf8DecodeFuel (f + 1) (utf8EncodeCp c ++ utf8Encode rest) = some (c :: rest)
    rw [utf8DecodeFuel_encodeCp hc, ih f (by simp at hfuel; omega) hrest]
    rfl

theorem utf8Encode_length_le (cps : List Nat) : cps.length ≤ (utf8Encode cps).length := by
  induction cps with
  | nil => simp [utf8Encode]
  | cons c rest ih =>
    show (c :: rest).length ≤ (utf8EncodeCp c ++ utf8Encode rest).length
    have : 1 ≤ (utf8EncodeCp c).length := by
      unfold utf8EncodeCp
      split
      · simp
      · split
        · simp
        · split <;> simp
    simp only [List.length_cons, List.length_append]
    omega

theorem utf8Decode_utf8Encode (cps : List Nat) (h : ∀ c ∈ cps, c < 0x110000) :
    utf8Decode (utf8Encode cps) = some cps :=
  utf8DecodeFuel_utf8Encode cps _ (utf8Encode_length_le cps) h

theorem utf8Encode_lt_256 {cps : List Nat} (h : ∀ c ∈ cps, c < 0x110000) :
    ∀ b ∈ utf8Encode cps, b < 256 := by
  intro b hb
  simp only [utf8Encode, List.mem_flatMap] at hb
  obtain ⟨c, hc, hbc⟩ := hb
  exact utf8EncodeCp_lt_256 (h c hc) b hbc

/-! Strings as codepoint sequences -/

def charOfNat? (n : Nat) : Option Char :=
  if h : n.isValidChar then some (Char.ofNatAux n h) else none

theorem charOfNat?_toNat (c : Char) : charOfNat? c.toNat = some c := by
  unfold charOfNat?
  rw [dif_pos (show c.toNat.isValidChar from c.valid)]
  have h := Char.ofNat_toNat c
  unfold Char.ofNat at h
  rw [dif_pos (show c.toNat.isValidChar from c.valid)] at h
  rw [h]

theorem char_toNat_lt (c : Char) : c.toNat < 0x110000 := by
  have h := c.valid
  show c.val.toNat < 0x110000
  rcases h with h | h
  · omega
  · omega

def strToCps (s : String) : List Nat := s.data.map Char.toNat

def cpsToStr? (cps : List Nat) : Option String :=
  (cps.mapM charOfNat?).map (fun cs => ⟨cs⟩)

theorem cpsToStr?_strToCps (s : String) : cpsToStr? (strToCps s) = some s := by
  unfold cpsToStr? strToCps
  have h : ∀ l : List Char, (l.map Char.toNat).mapM charOfNat? = some l := by
    intro l
    induction l with
    | nil => rfl
    | cons c rest ih =>
      simp only [List.map_cons, List.mapM_cons, charOfNat?_toNat, ih]
      rfl
  rw [h s.data]
  rfl

theorem strToCps_lt (s : String) : ∀ c ∈ strToCps s, c < 0x110000 := by
  intro c hc
  simp only [strToCps, List.mem_map] at hc
  obtain ⟨ch, _, rfl⟩ := hc
  exact char_toNat_lt ch

/-- Model of `Buffer.from(value).toString('base64')`. -/
def stringToBase64 (s : String) : String := ⟨b64encode (utf8Encode (strToCps s))⟩

/-- Model of `Buffer.from(base64, 'base64').toString('utf8')`.  Node decodes
malformed input leniently; this data path only ever decodes genuine
base64-encoded UTF-8, so failure is modelled as `none`. -/
def base64ToString (t : String) : Option String := do
  let bytes ← b64decode t.data
  let cps ← utf8Decode bytes
  cpsToStr? cps

theorem base64ToString_stringToBase64 (s : String) :
    base64ToString (stringToBase64 s) = some s := by
  unfold base64ToString stringToBase64
  rw [show (String.mk (b64encode (utf8Encode (strToCps s)))).data
      = b64encode (utf8Encode (strToCps s)) from rfl]
  rw [b64decode_b64encode _ (utf8Encode_lt_256 (strToCps_lt s))]
  rw [Option.bind_eq_bind, Option.some_bind]
  rw [utf8Decode_utf8Encode _ (strToCps_lt s)]
  rw [Option.some_bind]
  exact cpsToStr?_strToCps s

/-! JSON text: the printer fragment `JSON.stringify` emits on this data
path, and a parser modelling `JSON.parse` on it.

The printer covers flat objects with string values (exactly the shape of a
serialized `IConnectionInfo`).  The parser covers scalars, flat objects and
scalar arrays without insignificant whitespace — every JSON document this
code produces or consumes (connection tokens, Kusto chart metadata) is in
that compact fragment.  JSON numbers are modelled as (optionally signed)
integers. -/

def hexDigitChar (n : Nat) : Char := "0123456789abcdef".data.getD n '0'

def hexVal (c : Char) : Option Nat :=
  if '0' ≤ c ∧ c ≤ '9' then some (c.toNat - '0'.toNat)
  else if 'a' ≤ c ∧ c ≤ 'f' then some (c.toNat - 'a'.toNat + 10)
  else if 'A' ≤ c ∧ c ≤ 'F' then some (c.toNat - 'A'.toNat + 10)
  else none

theorem hexVal_hexDigitChar : ∀ n, n < 16 → hexVal (hexDigitChar n) = some n := by decide

/-- JSON string-character escaping as `JSON.stringify` performs it: quote and
backslash get two-character escapes, control characters get `\u00XX`, and
everything else passes through. -/
def escapeChar (c : Char) : List Char :=
  if c = '"' then ['\\', '"']
  else if c = '\\' then ['\\', '\\']
  else if c.toNat < 32 then
    ['\\', 'u', '0', '0', hexDigitChar (c.toNat / 16), hexDigitChar (c.toNat % 16)]
  else [c]

def quoteStr (s : String) : List Char := '"' :: (s.data.flatMap escapeChar ++ ['"'])

def parseHex4 : List Char → Option (Char × List Char)
  | h1 :: h2 :: h3 :: h4 :: rest =>
    match hexVal h1, hexVal h2, hexVal h3, hexVal h4 with
    | some a, some b, some c, some d =>
      match charOfNat? (a * 4096 + b * 256 + c * 16 + d) with
      | some ch => some (ch, rest)
      | none => none
    | _, _, _, _ => none
  | _ => none

def parseEsc : List Char → Option (Char × List Char)
  | [] => none
  | e :: rest1 =>
    if e = '"' then some ('"', rest1)
    else if e = '\\' then some ('\\', rest1)
    else if e = '/' then some ('/', rest1)
    else if e = 'n' then some ('\n', rest1)
    else if e = 't' then some ('\t', rest1)
    else if e = 'r' then some ('\r', rest1)
    else if e = 'b' then some (Char.ofNat 8, rest1)
    else if e = 'f' then some (Char.ofNat 12, rest1)
    else if e = 'u' then parseHex4 rest1
    else none

def parseStrBody : Nat → List Char → Option (List Char × List Char)
  | _, [] => none
  | 0, _ :: _ => none
  | fuel + 1, c :: rest =>
    if c = '"' then some ([], rest)
    else if c = '\\' then
      match parseEsc rest with
      | some (ch, rest1) => (parseStrBody fuel rest1).map (fun p => (ch :: p.1, p.2))
      | none => none
    else (parseStrBody fuel rest).map (fun p => (c :: p.1, p.2))

/-- Parse a JSON string literal (including the opening quote). -/
def parseStringLit (cs : List Char) : Option (String × List Char) :=
  match cs with
  | c :: rest =>
    if c = '"' then (parseStrBody rest.length rest).map (fun p => (String.mk p.1, p.2))
    else none
  | [] => none

theorem escapeChar_length_pos (c : Char) : 0 < (escapeChar c).length := by
  unfold escapeChar
  split
  · simp
  · split
    · simp
    · split <;> simp

theorem parseStrBody_escape (l : List Char) :
    ∀ (fuel : Nat) (rest : List Char), l.length + 1 ≤ fuel →
      parseStrBody fuel (l.flatMap escapeChar ++ ('"' :: rest)) = some (l, rest) := by
  induction l with
  | nil =>
    intro fuel rest hfuel
    obtain ⟨f, rfl⟩ : ∃ f, fuel = f + 1 := ⟨fuel - 1, by omega⟩
    rw [List.flatMap_nil, List.nil_append, parseStrBody, if_pos rfl]
  | cons c tl ih =>
    intro fuel rest hfuel
    obtain ⟨f, rfl⟩ : ∃ f, fuel = f + 1 := ⟨fuel - 1, by omega⟩
    have hf : tl.length + 1 ≤ f := by simp at hfuel; omega
    rw [List.flatMap_cons, List.append_assoc]
    by_cases h1 : c = '"'
    · have hesc : escapeChar c = ['\\', '"'] := by unfold escapeChar; rw [if_pos h1]
      rw [hesc, show (['\\', '"'] ++ (tl.flatMap escapeChar ++ '"' :: rest))
          = '\\' :: ('"' :: (tl.flatMap escapeChar ++ '"' :: rest)) from rfl]
      rw [parseStrBody, if_neg (by decide), if_pos rfl]
      rw [show parseEsc ('"' :: (tl.flatMap escapeChar ++ '"' :: rest))
          = some ('"', tl.flatMap escapeChar ++ '"' :: rest) from by
        rw [parseEsc, if_pos rfl]]
      try dsimp only
      rw [ih f rest hf]
      rw [h1]
      rfl
    · by_cases h2 : c = '\\'
      · have hesc : escapeChar c = ['\\', '\\'] := by
          unfold escapeChar; rw [if_neg h1, if_pos h2]
        rw [hesc, show (['\\', '\\'] ++ (tl.flatMap escapeChar ++ '"' :: rest))
            = '\\' :: ('\\' :: (tl.flatMap escapeChar ++ '"' :: rest)) from rfl]
        rw [parseStrBody, if_neg (by decide), if_pos rfl]
        rw [show parseEsc ('\\' :: (tl.flatMap escapeChar ++ '"' :: rest))
            = some ('\\', tl.flatMap escapeChar ++ '"' :: rest) from by
          rw [parseEsc, if_neg (by decide), if_pos rfl]]
        try dsimp only
        rw [ih f rest hf]
        rw [h2]
        rfl
      · by_cases h3 : c.toNat < 32
        · have hesc : escapeChar c =
              ['\\', 'u', '0', '0', hexDigitChar (c.toNat / 16), hexDigitChar (c.toNat % 16)] := by
            unfold escapeChar; rw [if_neg h1, if_neg h2, if_pos h3]
          rw [hesc, show (['\\', 'u', '0', '0', hexDigitChar (c.toNat / 16),
              hexDigitChar (c.toNat % 16)] ++ (tl.flatMap escapeChar ++ '"' :: rest))
              = '\\' :: ('u' :: '0' :: '0' :: hexDigitChar (c.toNat / 16) ::
                hexDigitChar (c.toNat % 16) :: (tl.flatMap escapeChar ++ '"' :: rest)) from rfl]
          rw [parseStrBody, if_neg (by decide), if_pos rfl]
          rw [show parseEsc ('u' :: '0' :: '0' :: hexDigitChar (c.toNat / 16) ::
              hexDigitChar (c.toNat % 16) :: (tl.flatMap escapeChar ++ '"' :: rest))
              = parseHex4 ('0' :: '0' :: hexDigitChar (c.toNat / 16) ::
                hexDigitChar (c.toNat % 16) :: (tl.flatMap escapeChar ++ '"' :: rest)) from by
            rw [parseEsc, if_neg (by decide), if_neg (by decide), if_neg (by decide),
              if_neg (by decide), if_neg (by decide), if_neg (by decide), if_neg (by decide),
              if_neg (by decide), if_pos rfl]]
          rw [parseHex4, show hexVal '0' = some 0 from by decide,
            hexVal_hexDigitChar _ (by omega), hexVal_hexDigitChar _ (by omega)]
          try dsimp only
          rw [show (0 * 4096 + 0 * 256 + c.toNat / 16 * 16 + c.toNat % 16) = c.toNat from by omega,
            charOfNat?_toNat]
          try dsimp only
          rw [ih f rest hf]
          rfl
        · have hesc : escapeChar c = [c] := by
            unfold escapeChar; rw [if_neg h1, if_neg h2, if_neg h3]
          rw [hesc, show ([c] ++ (tl.flatMap escapeChar ++ '"' :: rest))
              = c :: (tl.flatMap escapeChar ++ '"' :: rest) from rfl]
          rw [parseStrBody, if_neg h1, if_neg h2, ih f rest hf]
          rfl

theorem escape_length_le (l : List Char) : l.length ≤ (l.flatMap escapeChar).length := by
  induction l with
  | nil => simp
  | cons c tl ih =>
    rw [List.flatMap_cons, List.length_append]
    have := escapeChar_length_pos c
    simp only [List.length_cons]
    omega

theorem parseStringLit_quoteStr (s : String) (rest : List Char) :
    parseStringLit (quoteStr s ++ rest) = some (s, rest) := by
  unfold quoteStr parseStringLit
  rw [show ('"' :: (s.data.flatMap escapeChar ++ ['"']) ++ rest)
      = '"' :: (s.data.flatMap escapeChar ++ ('"' :: rest)) from by simp]
  dsimp only
  rw [if_pos rfl]
  rw [parseStrBody_escape s.data _ rest (by
    rw [List.length_append, List.length_cons]
    have := escape_length_le s.data
    omega)]
  rfl

def takeDigits : List Char → (List Char × List Char)
  | [] => ([], [])
  | c :: rest =>
    if c.isDigit then
      let p := takeDigits rest
      (c :: p.1, p.2)
    else ([], c :: rest)

def digitsToNat (ds : List Char) : Nat := ds.foldl (fun acc c => acc * 10 + (c.toNat - 48)) 0

def parseLit (cs : List Char) : Option (JLit × List Char) :=
  match cs with
  | [] => none
  | c :: rest =>
    if c = '"' then (parseStringLit cs).map (fun p => (JLit.jstr p.1, p.2))
    else if c = 'n' then
      if rest.take 3 = ['u', 'l', 'l'] then some (.jnull, rest.drop 3) else none
    else if c = 't' then
      if rest.take 3 = ['r', 'u', 'e'] then some (.jbool true, rest.drop 3) else none
    else if c = 'f' then
      if rest.take 4 = ['a', 'l', 's', 'e'] then some (.jbool false, rest.drop 4) else none
    else if c = '-' then
      let p := takeDigits rest
      if p.1.isEmpty then none else some (.jnum (-(digitsToNat p.1 : Int)), p.2)
    else if c.isDigit then
      let p := takeDigits (c :: rest)
      some (.jnum (digitsToNat p.1), p.2)
    else none

def parseMembers : Nat → List Char → Option (List (String × JLit) × List Char)
  | 0, _ => none
  | fuel + 1, cs =>
    match parseStringLit cs with
    | some (k, cs1) =>
      match cs1 with
      | c :: cs2 =>
        if c = ':' then
          match parseLit cs2 with
          | some (v, cs3) =>
            match cs3 with
            | c2 :: cs4 =>
              if c2 = ',' then (parseMembers fuel cs4).map (fun p => ((k, v) :: p.1, p.2))
              else if c2 = '}' then some ([(k, v)], cs4)
              else none
            | [] => none
          | none => none
        else none
      | [] => none
    | none => none

def parseElems : Nat → List Char → Option (List JLit × List Char)
  | 0, _ => none
  | fuel + 1, cs =>
    match parseLit cs with
    | some (v, cs1) =>
      match cs1 with
      | c :: cs2 =>
        if c = ',' then (parseElems fuel cs2).map (fun p => (v :: p.1, p.2))
        else if c = ']' then some ([v], cs2)
        else none
      | [] => none
    | none => none

def parseJVal (fuel : Nat) (cs : List Char) : Option (JVal × List Char) :=
  match cs with
  | [] => none
  | c :: rest =>
    if c = '{' then
      match rest with
      | c2 :: rest2 =>
        if c2 = '}' then some (.jobj [], rest2)
        else (parseMembers fuel rest).map (fun p => (JVal.jobj p.1, p.2))
      | [] => none
    else if c = '[' then
      match rest with
      | c2 :: rest2 =>
        if c2 = ']' then some (.jarr [], rest2)
        else (parseElems fuel rest).map (fun p => (JVal.jarr p.1, p.2))
      | [] => none
    else (parseLit cs).map (fun p => (JVal.lit p.1, p.2))

def jsonParse (s : String) : Option JVal :=
  match parseJVal (s.length + 1) s.data with
  | some (v, r) => if r.isEmpty then some v else none
  | none => none

def stringifyMember (kv : String × String) : List Char :=
  quoteStr kv.1 ++ (':' :: quoteStr kv.2)

def stringifyMembers : List (String × String) → List Char
  | [] => []
  | [kv] => stringifyMember kv
  | kv :: rest => stringifyMember kv ++ (',' :: stringifyMembers rest)

def stringifyFlatObj (o : List (String × String)) : List Char :=
  '{' :: (stringifyMembers o ++ ['}'])

def liftObj (o : List (String × String)) : List (String × JLit) :=
  o.map (fun kv => (kv.1, .jstr kv.2))

theorem parseLit_quoteStr (v : String) (rest : List Char) :
    parseLit (quoteStr v ++ rest) = some (.jstr v, rest) := by
  rw [show (quoteStr v ++ rest) = '"' :: ((v.data.flatMap escapeChar ++ ['"']) ++ rest) from rfl]
  rw [parseLit]
  dsimp only
  rw [if_pos rfl]
  rw [show ('"' :: ((v.data.flatMap escapeChar ++ ['"']) ++ rest))
      = quoteStr v ++ rest from rfl]
  rw [parseStringLit_quoteStr]
  rfl

theorem parseMembers_stringifyMembers :
    ∀ (o : List (String × String)) (fuel : Nat) (rest : List Char), o ≠ [] → o.length ≤ fuel →
      parseMembers fuel (stringifyMembers o ++ ('}' :: rest)) = some (liftObj o, rest) := by
  intro o
  induction o using stringifyMembers.induct with
  | case1 => intro fuel rest hne _; exact absurd rfl hne
  | case2 kv =>
    intro fuel rest _ hfuel
    obtain ⟨f, rfl⟩ : ∃ f, fuel = f + 1 := ⟨fuel - 1, by simp at hfuel; omega⟩
    rw [parseMembers]
    rw [show (stringifyMembers [kv] ++ ('}' :: rest))
        = quoteStr kv.1 ++ (':' :: (quoteStr kv.2 ++ ('}' :: rest))) from by
      simp [stringifyMembers, stringifyMember]]
    rw [parseStringLit_quoteStr]
    try dsimp only
    rw [if_pos rfl, parseLit_quoteStr]
    try dsimp only
    rw [if_neg (by decide), if_pos rfl]
    rfl
  | case3 kv tl htl ih =>
    intro fuel rest _ hfuel
    obtain ⟨f, rfl⟩ : ∃ f, fuel = f + 1 := ⟨fuel - 1, by simp at hfuel; omega⟩
    obtain ⟨next, tl2, rfl⟩ : ∃ a b, tl = a :: b := by
      cases tl with
      | nil => exact absurd rfl htl
      | cons a b => exact ⟨a, b, rfl⟩
    rw [parseMembers]
    rw [show (stringifyMembers (kv :: next :: tl2) ++ ('}' :: rest))
        = quoteStr kv.1 ++ (':' :: (quoteStr kv.2 ++ (',' ::
            (stringifyMembers (next :: tl2) ++ ('}' :: rest))))) from by
      simp [stringifyMembers, stringifyMember]]
    rw [parseStringLit_quoteStr]
    try dsimp only
    rw [if_pos rfl, parseLit_quoteStr]
    try dsimp only
    rw [if_pos rfl]
    rw [ih f rest (by simp) (by simp at hfuel ⊢; omega)]
    rfl

theorem stringifyMembers_length_ge :
    ∀ o : List (String × String), o.length ≤ (stringifyMembers o).length := by
  intro o
  induction o using stringifyMembers.induct with
  | case1 => simp [stringifyMembers]
  | case2 kv =>
    simp only [stringifyMembers, stringifyMember, quoteStr, List.length_cons]
    simp [List.length_append]
  | case3 kv tl htl ih =>
    obtain ⟨next, tl2, rfl⟩ : ∃ a b, tl = a :: b := by
      cases tl with
      | nil => exact absurd rfl htl
      | cons a b => exact ⟨a, b, rfl⟩
    simp only [stringifyMembers, stringifyMember, quoteStr, List.length_cons,
      List.length_append] at ih ⊢
    omega

theorem parseJVal_stringifyFlatObj (o : List (String × String)) (fuel : Nat) (rest : List Char)
    (hfuel : o.length ≤ fuel) :
    parseJVal fuel (stringifyFlatObj o ++ rest) = some (.jobj (liftObj o), rest) := by
  match o with
  | [] =>
    rw [show (stringifyFlatObj [] ++ rest) = '{' :: ('}' :: rest) from rfl]
    rw [parseJVal]
    try dsimp only
    rw [if_pos rfl, if_pos rfl]
    rfl
  | kv :: tl =>
    obtain ⟨T, hT⟩ : ∃ T, stringifyMembers (kv :: tl) = '"' :: T := by
      cases tl with
      | nil =>
        exact ⟨(kv.1.data.flatMap escapeChar ++ ['"']) ++ (':' :: quoteStr kv.2), by
          simp [stringifyMembers, stringifyMember, quoteStr]⟩
      | cons a b =>
        exact ⟨(kv.1.data.flatMap escapeChar ++ ['"']) ++
            (':' :: (quoteStr kv.2 ++ (',' :: stringifyMembers (a :: b)))), by
          simp [stringifyMembers, stringifyMember, quoteStr]⟩
    rw [show (stringifyFlatObj (kv :: tl) ++ rest)
        = '{' :: (stringifyMembers (kv :: tl) ++ ('}' :: rest)) from by
      simp [stringifyFlatObj]]
    rw [hT, List.cons_append, parseJVal]
    try dsimp only
    rw [if_pos rfl, if_neg (by decide)]
    rw [← List.cons_append, ← hT]
    rw [parseMembers_stringifyMembers (kv :: tl) fuel rest (by simp) hfuel]
    rfl


/-! Connection-info token codec
(`src/extension/kusto/connections/types.ts`)

A runtime `IConnectionInfo` value is a flat JavaScript object with string
properties, modelled as an association list in insertion order. -/

abbrev Obj := List (String × String)

/-! Code-unit-wise string comparison, as the default `Array.prototype.sort`
comparator on `Object.keys` performs it. -/

def charListLe : List Char → List Char → Bool
  | [], _ => true
  | _ :: _, [] => false
  | c1 :: t1, c2 :: t2 =>
    if c1.toNat < c2.toNat then true
    else if c2.toNat < c1.toNat then false
    else charListLe t1 t2

theorem char_toNat_inj {c1 c2 : Char} (h : c1.toNat = c2.toNat) : c1 = c2 :=
  Char.ext (UInt32.ext h)

theorem charListLe_total : ∀ a b : List Char, (charListLe a b || charListLe b a) = true := by
  intro a
  induction a with
  | nil => intro b; simp [charListLe]
  | cons c1 t1 ih =>
    intro b
    cases b with
    | nil => simp [charListLe]
    | cons c2 t2 =>
      simp only [charListLe]
      by_cases h1 : c1.toNat < c2.toNat
      · rw [if_pos h1]
        simp
      · rw [if_neg h1]
        by_cases h2 : c2.toNat < c1.toNat
        · rw [if_pos h2, if_pos h2]
          simp
        · rw [if_neg h2, if_neg h2, if_neg h1]
          exact ih t2

theorem charListLe_trans :
    ∀ a b c : List Char, charListLe a b = true → charListLe b c = true →
      charListLe a c = true := by
  intro a
  induction a with
  | nil => intro b c _ _; rfl
  | cons c1 t1 ih =>
    intro b c hab hbc
    cases b with
    | nil => simp [charListLe] at hab
    | cons c2 t2 =>
      cases c with
      | nil => simp [charListLe] at hbc
      | cons c3 t3 =>
        simp only [charListLe] at hab hbc ⊢
        by_cases h12 : c1.toNat < c2.toNat
        · by_cases h23 : c2.toNat < c3.toNat
          · rw [if_pos (by omega)]
          · rw [if_neg h23] at hbc
            by_cases h32 : c3.toNat < c2.toNat
            · rw [if_pos h32] at hbc
              simp at hbc
            · rw [if_neg h32] at hbc
              rw [if_pos (by omega)]
        · rw [if_neg h12] at hab
          by_cases h21 : c2.toNat < c1.toNat
          · rw [if_pos h21] at hab
            simp at hab
          · rw [if_neg h21] at hab
            by_cases h23 : c2.toNat < c3.toNat
            · rw [if_pos (by omega)]
            · rw [if_neg h23] at hbc
              by_cases h32 : c3.toNat < c2.toNat
              · rw [if_pos h32] at hbc
                simp at hbc
              · rw [if_neg h32] at hbc
                rw [if_neg (by omega), if_neg (by omega)]
                exact ih t2 t3 hab hbc

theorem charListLe_antisymm :
    ∀ a b : List Char, charListLe a b = true → charListLe b a = true → a = b := by
  intro a
  induction a with
  | nil =>
    intro b _ hba
    cases b with
    | nil => rfl
    | cons c2 t2 => simp [charListLe] at hba
  | cons c1 t1 ih =>
    intro b hab hba
    cases b with
    | nil => simp [charListLe] at hab
    | cons c2 t2 =>
      simp only [charListLe] at hab hba
      by_cases h12 : c1.toNat < c2.toNat
      · rw [if_neg (by omega), if_pos h12] at hba
        simp at hba
      · rw [if_neg h12] at hab
        by_cases h21 : c2.toNat < c1.toNat
        · rw [if_pos h21] at hab
          simp at hab
        · rw [if_neg h21] at hab
          rw [if_neg h21, if_neg h12] at hba
          have hc : c1 = c2 := char_toNat_inj (by omega)
          rw [hc, ih t2 hab hba]

def strLe (a b : String) : Bool := charListLe a.data b.data

/-- Key comparator used by `Object.keys(info).sort()`. -/
def keyLe (a b : String × String) : Bool := strLe a.1 b.1

/-- Property list sorted by key — the effect of passing
`Object.keys(info).sort()` as the replacer array of `JSON.stringify`
(the replacer array fixes the emission order of the properties). -/
def sortObj (o : Obj) : Obj := o.mergeSort keyLe

/-- Translation of `encodeConnectionInfo`:
`stringToBase64(JSON.stringify(info, Object.keys(info).sort()))`. -/
def encodeConnectionInfo (o : Obj) : String :=
  stringToBase64 (String.mk (stringifyFlatObj (sortObj o)))

/-- Read a parsed JSON value back as a flat string-valued object (the shape
a deserialized `IConnectionInfo` has).  Anything else is a failure. -/
def asFlatObj? : JVal → Option Obj
  | .jobj fields =>
    fields.mapM (fun kv =>
      match kv.2 with
      | .jstr s => some (kv.1, s)
      | _ => none)
  | _ => none

/-- Translation of `decodeConnectionInfo`: parse the base64 token, then
re-encode the decoded value and parse that, so the returned object has
canonically sorted properties.  A JavaScript throw (bad base64, bad JSON)
is modelled as `none`; a token whose JSON is not a flat string-valued
object (which the untyped source would pass through as garbage rather than
a usable `IConnectionInfo`) is likewise a failure. -/
def decodeConnectionInfo (t : String) : Option Obj := do
  let s ← base64ToString t
  let v ← jsonParse s
  let o ← asFlatObj? v
  let s2 ← base64ToString (encodeConnectionInfo o)
  let v2 ← jsonParse s2
  asFlatObj? v2

theorem asFlatObj?_liftObj (o : Obj) : asFlatObj? (.jobj (liftObj o)) = some o := by
  have h : ∀ l : Obj, (l.map (fun kv => (kv.1, JLit.jstr kv.2))).mapM
      (fun kv : String × JLit =>
        match kv.2 with
        | JLit.jstr s => some (kv.1, s)
        | _ => none) = some l := by
    intro l
    induction l with
    | nil => rfl
    | cons kv tl ih =>
      simp only [List.map_cons, List.mapM_cons, ih]
      rfl
  exact h o

theorem jsonParse_stringifyFlatObj (o : Obj) :
    jsonParse (String.mk (stringifyFlatObj o)) = some (.jobj (liftObj o)) := by
  have hb : o.length ≤ (stringifyFlatObj o).length + 1 := by
    have := stringifyMembers_length_ge o
    simp only [stringifyFlatObj, List.length_cons, List.length_append]
    omega
  have hp := parseJVal_stringifyFlatObj o ((stringifyFlatObj o).length + 1) [] hb
  rw [List.append_nil] at hp
  unfold jsonParse
  rw [show (String.mk (stringifyFlatObj o)).length = (stringifyFlatObj o).length from rfl,
    show (String.mk (stringifyFlatObj o)).data = stringifyFlatObj o from rfl, hp]
  rfl

theorem keyLe_trans : ∀ a b c : String × String,
    keyLe a b = true → keyLe b c = true → keyLe a c = true := by
  intro a b c h1 h2
  exact charListLe_trans _ _ _ h1 h2

theorem keyLe_total : ∀ a b : String × String, (keyLe a b || keyLe b a) = true := by
  intro a b
  exact charListLe_total a.1.data b.1.data

theorem sortObj_perm (o : Obj) : (sortObj o).Perm o := List.mergeSort_perm o keyLe

theorem sortObj_sorted (o : Obj) :
    (sortObj o).Pairwise (fun a b => keyLe a b = true) :=
  List.sorted_mergeSort keyLe_trans keyLe_total o

theorem sortObj_idem (o : Obj) : sortObj (sortObj o) = sortObj o :=
  List.mergeSort_of_sorted (sortObj_sorted o)

theorem sorted_perm_nodupkeys_eq :
    ∀ l1 l2 : Obj, l1.Perm l2 → l1.Pairwise (fun a b => keyLe a b = true) →
      l2.Pairwise (fun a b => keyLe a b = true) → (l1.map Prod.fst).Nodup → l1 = l2 := by
  intro l1
  induction l1 with
  | nil =>
    intro l2 hp _ _ _
    exact (List.Perm.eq_nil hp.symm).symm
  | cons a t1 ih =>
    intro l2 hp hs1 hs2 hnd
    cases l2 with
    | nil => exact absurd (List.Perm.eq_nil hp) (by simp)
    | cons b t2 =>
      have hab : a.1 = b.1 := by
        have ha2 : a ∈ b :: t2 := hp.mem_iff.mp (by simp)
        have hb1 : b ∈ a :: t1 := hp.mem_iff.mpr (by simp)
        rcases List.mem_cons.mp ha2 with h | h
        · rw [h]
        · rcases List.mem_cons.mp hb1 with h2 | h2
          · rw [h2]
          · have hle1 : keyLe a b = true := (List.pairwise_cons.mp hs1).1 b h2
            have hle2 : keyLe b a = true := (List.pairwise_cons.mp hs2).1 a h
            have hdata : a.1.data = b.1.data := charListLe_antisymm _ _ hle1 hle2
            exact congrArg String.mk hdata
      have hae : a = b := by
        have hb1 : b ∈ a :: t1 := hp.mem_iff.mpr (by simp)
        rcases List.mem_cons.mp hb1 with h2 | h2
        · exact h2.symm
        · exfalso
          rw [List.map_cons] at hnd
          have hmem : a.1 ∈ t1.map Prod.fst := by
            rw [hab]
            exact List.mem_map_of_mem Prod.fst h2
          exact (List.nodup_cons.mp hnd).1 hmem
      subst hae
      have hp2 : t1.Perm t2 := hp.cons_inv
      have hr := ih t2 hp2 (List.pairwise_cons.mp hs1).2 (List.pairwise_cons.mp hs2).2
        (by
          rw [List.map_cons] at hnd
          exact (List.nodup_cons.mp hnd).2)
      rw [hr]

theorem sortObj_eq_of_perm {o1 o2 : Obj} (h : o1.Perm o2)
    (hnd : (o1.map Prod.fst).Nodup) : sortObj o1 = sortObj o2 := by
  refine sorted_perm_nodupkeys_eq _ _ ?_ (sortObj_sorted o1) (sortObj_sorted o2) ?_
  · exact ((sortObj_perm o1).trans h).trans (sortObj_perm o2).symm
  · have hmap : ((sortObj o1).map Prod.fst).Perm (o1.map Prod.fst) :=
      (sortObj_perm o1).map Prod.fst
    exact hmap.nodup_iff.mpr hnd

theorem encodeConnectionInfo_eq_of_perm {o1 o2 : Obj} (h : o1.Perm o2)
    (hnd : (o1.map Prod.fst).Nodup) :
    encodeConnectionInfo o1 = encodeConnectionInfo o2 := by
  unfold encodeConnectionInfo
  rw [sortObj_eq_of_perm h hnd]

/-- What `decodeConnectionInfo` does on any base64-encoded stringified flat
object, canonical or not: it succeeds and silently canonicalizes. -/
theorem decodeConnectionInfo_stringify (o : Obj) :
    decodeConnectionInfo (stringToBase64 (String.mk (stringifyFlatObj o))) = some (sortObj o) := by
  unfold decodeConnectionInfo
  simp only [encodeConnectionInfo, base64ToString_stringToBase64, jsonParse_stringifyFlatObj,
    asFlatObj?_liftObj, Option.bind_eq_bind, Option.some_bind]

theorem decode_encodeConnectionInfo (o : Obj) :
    decodeConnectionInfo (encodeConnectionInfo o) = some (sortObj o) := by
  rw [show encodeConnectionInfo o = stringToBase64 (String.mk (stringifyFlatObj (sortObj o)))
      from rfl, decodeConnectionInfo_stringify, sortObj_idem]


/-! Structured connection info (the `IConnectionInfo` union of types.ts) -/

inductive ConnInfo where
  | azAuth (id displayName cluster : String) (database : Option String)
  | appInsights (id displayName : String)
  deriving Repr, DecidableEq

def ConnInfo.id : ConnInfo → String
  | .azAuth i _ _ _ => i
  | .appInsights i _ => i

/-- The runtime object a `ConnInfo` value denotes, properties in the
declaration order of the TypeScript type.  Any other insertion order denotes
the same connection (see the permutation lemmas); an absent optional
`database` has no key, exactly as `JSON.stringify` treats `undefined`. -/
def toObj : ConnInfo → Obj
  | .azAuth i d c db =>
    [("id", i), ("displayName", d), ("type", "azAuth"), ("cluster", c)] ++
      (match db with
       | some v => [("database", v)]
       | none => [])
  | .appInsights i d => [("id", i), ("displayName", d), ("type", "appInsights")]

theorem toObj_keys_nodup (x : ConnInfo) : ((toObj x).map Prod.fst).Nodup := by
  cases x with
  | azAuth i d c db => cases db <;> simp [toObj]
  | appInsights i d => simp [toObj]

theorem id_mem_toObj (x : ConnInfo) : ("id", x.id) ∈ toObj x := by
  cases x with
  | azAuth i d c db => cases db <;> simp [toObj, ConnInfo.id]
  | appInsights i d => simp [toObj, ConnInfo.id]

theorem mem_id_toObj {x : ConnInfo} {v : String} (h : ("id", v) ∈ toObj x) : v = x.id := by
  cases x with
  | azAuth i d c db => cases db <;> simp [toObj, ConnInfo.id] at h ⊢ <;> tauto
  | appInsights i d => simp [toObj, ConnInfo.id] at h ⊢; tauto

theorem encode_toObj_id_inj {x y : ConnInfo}
    (h : encodeConnectionInfo (toObj x) = encodeConnectionInfo (toObj y)) : x.id = y.id := by
  have hd : some (sortObj (toObj x)) = some (sortObj (toObj y)) := by
    rw [← decode_encodeConnectionInfo, ← decode_encodeConnectionInfo, h]
  have hs : sortObj (toObj x) = sortObj (toObj y) := Option.some.inj hd
  have hperm : (toObj x).Perm (toObj y) :=
    ((sortObj_perm (toObj x)).symm.trans (hs ▸ sortObj_perm (toObj y)))
  have hmem : ("id", x.id) ∈ toObj y := hperm.mem_iff.mp (id_mem_toObj x)
  exact mem_id_toObj hmem

/-! Tabular response model (`KustoResponseDataSet` as this code consumes it)

Tables carry rows in array-of-arrays form (`row.raw`), the shape both the
kernel and the renderers normalize to; cells are JSON values. -/

structure KustoColumn where
  name : String
  type : String
  ordinal : Nat
  deriving Repr, DecidableEq

structure KustoTable where
  name : String
  columns : List KustoColumn
  rows : List (List JVal)
  deriving Repr, DecidableEq

structure KustoResponseDataSet where
  tables : List KustoTable
  tableNames : List String
  primaryResults : List KustoTable
  deriving Repr, DecidableEq

/-! Chart-type inference (`getChartType`, chart.ts / chart renderer) -/

inductive ChartType where
  | pie (title : String)
  | time (title : String)
  | bar (title : String) (orientation : String)
  deriving Repr, DecidableEq

/-- JavaScript `String.prototype.includes`. -/
def jsIncludes (hay needle : List Char) : Bool :=
  match hay with
  | [] => needle.isEmpty
  | c :: rest => needle.isPrefixOf (c :: rest) || jsIncludes rest needle

/-- The `typeof rows[0][0] === 'string' && rows[0][0].includes('Visualization')`
test (negated in the source guard). -/
def includesViz (c : Option JVal) : Bool :=
  match c with
  | some (.lit (.jstr s)) => jsIncludes s.data "Visualization".data
  | _ => false

/-- Model of `JSON.parse(cell)`: the argument is coerced to a string first,
so string cells are parsed as documents, other scalars re-parse to
themselves, and objects/arrays stringify to non-JSON (a throw, hence
`none`).  An out-of-range index is `undefined`, and `JSON.parse(undefined)`
throws. -/
def jsonParseCell : Option JVal → Option JVal
  | none => none
  | some (.lit (.jstr s)) => jsonParse s
  | some (.lit l) => some (.lit l)
  | some (.jobj _) => none
  | some (.jarr _) => none

def jsStringOfLit : JLit → String
  | .jstr s => s
  | .jnum n => toString n
  | .jbool true => "true"
  | .jbool false => "false"
  | .jnull => "null"

/-- The chart title: `data.Title || ''` (a falsy `Title` yields the empty
string; a truthy non-string one is coerced to text downstream). -/
def titleOf (data : JVal) : String :=
  match data.getField "Title" with
  | some t => if t.truthy then jsStringOfLit t else ""
  | none => ""

/-- Translation of `getChartType` (chart renderer, lines 106-183), on the
array-of-arrays row shape.  The source wraps the final `Visualization`
if-chain in a `try` whose `catch` returns undefined; property access on a
parsed JSON value cannot throw, so that catch is unreachable and the chain
is translated directly. -/
def getChartType (results : KustoResponseDataSet) : Option ChartType :=
  if results.tables.length = 0 then none
  else
    match results.tables.find? (fun t => t.name == "@ExtendedProperties") with
    | none => none
    | some queryPropertiesTable =>
      match queryPropertiesTable.rows with
      | [] => none
      | row0 :: _ =>
        if row0.get? 1 ≠ some (.lit (.jstr "Visualization")) ∧ includesViz (row0.get? 0) = false
        then none
        else
          let d2 :=
            match jsonParseCell (row0.get? 2) with
            | some v =>
              if v.truthy then some v
              else
                match jsonParseCell (row0.get? 0) with
                | some w => some w
                | none => some v
            | none => jsonParseCell (row0.get? 0)
          match d2 with
          | none => none
          | some data =>
            if data.truthy = false then none
            else if data.getField "Visualization" = some (.jstr "piechart") then
              some (.pie (titleOf data))
            else if data.getField "Visualization" = some (.jstr "barchart") then
              some (.bar (titleOf data) "h")
            else if data.getField "Visualization" = some (.jstr "timechart") ∨
                data.getField "Visualization" = some (.jstr "linechart") then
              some (.time (titleOf data))
            else if data.getField "Visualization" = some (.jstr "columnchart") then
              some (.bar (titleOf data) "v")
            else none

/-- Claim-side metadata extraction: try the ordinal-2 cell, fall back to
ordinal 0 when that parse fails or yields a falsy value (in the latter case
a failing fallback parse leaves the falsy value in place). -/
def specChartMetadata (row0 : List JVal) : Option JVal :=
  match jsonParseCell (row0.get? 2) with
  | some v =>
    if v.truthy then some v
    else
      match jsonParseCell (row0.get? 0) with
      | some w => some w
      | none => some v
  | none => jsonParseCell (row0.get? 0)

/-- Claim-side visualization mapping: `piechart`→pie, `barchart`→bar
(horizontal), `columnchart`→bar (vertical), `timechart`/`linechart`→time,
anything else (or falsy/absent metadata) → no chart. -/
def specVizDecision (data : JVal) : Option ChartType :=
  if data.truthy = false then none
  else
    match data.getField "Visualization" with
    | some (.jstr s) =>
      if s = "piechart" then some (.pie (titleOf data))
      else if s = "barchart" then some (.bar (titleOf data) "h")
      else if s = "timechart" ∨ s = "linechart" then some (.time (titleOf data))
      else if s = "columnchart" then some (.bar (titleOf data) "v")
      else none
    | _ => none


/-! Execution kernel (`KernelPerConnection.executeCell`)

The execution is modelled as a function of the decision points of one run:
whether `Client.create` produced a client, which arm of the
`Promise.race([tokenPromise, client.execute(...)])` settled first (and with
what), and whether `task.token.isCancellationRequested` held at the
post-race check.  The output is the task/output effect trace. -/

inductive CellOutput where
  | vizResult (r : KustoResponseDataSet)
  | tabularResult (r : KustoResponseDataSet)
  | errorOutput (name message : String)
  deriving Repr, DecidableEq

structure KustoDataError where
  atMessage : Option String
  message : Option String
  deriving Repr, DecidableEq

structure ResponseData where
  error : Option KustoDataError
  message : Option String
  deriving Repr, DecidableEq

structure HttpResponse where
  status : Option Int
  data : Option ResponseData
  deriving Repr, DecidableEq

/-- The shapes the catch block distinguishes: an axios-style error with a
`response` object, a standard `Error`, a Kusto error with `message` (and
optional `innererror.message`), or anything else.  An absent/empty message
field is `none`/`""` (both falsy to `||`). -/
inductive JsError where
  | withResponse (response : HttpResponse)
  | stdError (name message : String)
  | withMessage (message : String) (innererror : Option String)
  | other
  deriving Repr, DecidableEq

inductive RaceOutcome where
  | cancelled
  | resolved (r : KustoResponseDataSet)
  | rejected (e : JsError)
  deriving Repr, DecidableEq

structure ExecResult where
  started : Bool
  outputs : List CellOutput
  ended : Bool
  success : Bool
  endTimestamp : Bool
  deriving Repr, DecidableEq

/-- The error classification of the catch block (executeCell lines 174-209):
message extraction from the axios response, then the status-code name map;
other error shapes as per the else-if chain. -/
def classifyError : JsError → String × String
  | .withResponse response =>
    let errorMessage :=
      match response.data with
      | some d =>
        match d.error with
        | some e => jsOrStr e.atMessage (jsOrStr e.message "Failed to execute query")
        | none =>
          match d.message with
          | some m => if m = "" then "Failed to execute query" else m
          | none => "Failed to execute query"
      | none => "Failed to execute query"
    let errorName :=
      match response.status with
      | some s =>
        if s = 400 then "Invalid Query"
        else if s = 401 ∨ s = 403 then "Authentication Error"
        else if s = 408 ∨ s = 504 then "Query Timeout"
        else if s ≥ 500 then "Server Error"
        else "Query Error"
      | none => "Query Error"
    (errorName, errorMessage)
  | .stdError name message => (name, message)
  | .withMessage message innererror =>
    ("Query Error",
      message ++
        (match innererror with
         | some i => " (" ++ i ++ ")"
         | none => ""))
  | .other => ("Query Error", "Failed to execute query")

/-- The success-path response normalization (executeCell lines 160-165):
rebuild `primaryResults` from the `PrimaryResult`-named tables when empty
(or not an array — both behave identically afterwards), then drop that
table from `tables` and `tableNames`. -/
def normalizeResults (results : KustoResponseDataSet) : KustoResponseDataSet :=
  { tables := results.tables.filter (fun t => t.name != "PrimaryResult"),
    tableNames := results.tableNames.filter (fun n => n != "PrimaryResult"),
    primaryResults :=
      if results.primaryResults.isEmpty then
        results.tables.filter (fun t => t.name == "PrimaryResult")
      else results.primaryResults }

/-- Translation of `executeCell` (lines 114-213).  `getChartType` runs after
the `primaryResults` rebuild but before the table filtering, as in the
source; `chartType !== 'table'` is vacuously true for every defined chart
object, so the output kind is visual exactly when a chart was inferred. -/
def executeCell (clientCreated : Bool) (race : RaceOutcome) (tokenCancelled : Bool) : ExecResult :=
  if clientCreated = false then
    { started := false, outputs := [], ended := true, success := false, endTimestamp := false }
  else
    match race with
    | .cancelled =>
      { started := true, outputs := [], ended := true, success := false, endTimestamp := true }
    | .resolved results =>
      if tokenCancelled then
        { started := true, outputs := [], ended := true, success := false, endTimestamp := true }
      else
        let withPR : KustoResponseDataSet :=
          { results with
              primaryResults :=
                if results.primaryResults.isEmpty then
                  results.tables.filter (fun t => t.name == "PrimaryResult")
                else results.primaryResults }
        let chartType := getChartType withPR
        let final := normalizeResults results
        let out :=
          match chartType with
          | some _ => CellOutput.vizResult final
          | none => CellOutput.tabularResult final
        { started := true, outputs := [out], ended := true, success := true, endTimestamp := true }
    | .rejected e =>
      { started := true,
        outputs := [CellOutput.errorOutput (classifyError e).1 (classifyError e).2],
        ended := true, success := false, endTimestamp := true }

/-! Controller registry and the connection-changed reaction -/

structure KernelPerConnection where
  notebookType : String
  connection : ConnInfo
  deriving Repr, DecidableEq

def getControllerId (connection : ConnInfo) (notebookType : String) : String :=
  notebookType ++ "_" ++ encodeConnectionInfo (toObj connection)

/-- The `onConnectionChanged` subscription (kernel provider, lines 35-48):
`added` changes return immediately; otherwise every controller whose
connection has the removed connection's id is disposed and spliced out of
the registry.  Result: (remaining registry, disposed controllers). -/
def connectionChangedHandler (change : String) (connection : ConnInfo)
    (registeredControllers : List KernelPerConnection) :
    List KernelPerConnection × List KernelPerConnection :=
  if change = "added" then (registeredControllers, [])
  else
    (registeredControllers.filter (fun c => c.connection.id != connection.id),
     registeredControllers.filter (fun c => c.connection.id == connection.id))

/-! Time-chart row sorting (`renderChart`, `chartType.type === 'time'`)

`new Date(..)` is modelled for the string shapes this path produces:
ISO-like `YYYY-MM-DD` with optional `THH:MM:SS` (values monotone in the
fields); everything else is an invalid date, i.e. `NaN`, modelled `none`.
A comparator returning `NaN` behaves as 0 in the stable sort. -/

def allDigits (cs : List Char) : Bool := cs.all Char.isDigit

def jsDateFromChars (cs : List Char) : Option Int :=
  match cs with
  | y1 :: y2 :: y3 :: y4 :: '-' :: m1 :: m2 :: '-' :: d1 :: d2 :: rest =>
    if allDigits [y1, y2, y3, y4, m1, m2, d1, d2] then
      let ymd := (digitsToNat [y1, y2, y3, y4] * 13 + digitsToNat [m1, m2]) * 32 +
        digitsToNat [d1, d2]
      match rest with
      | [] => some (ymd * 86400 : Nat)
      | 'T' :: h1 :: h2 :: ':' :: mi1 :: mi2 :: ':' :: s1 :: s2 :: [] =>
        if allDigits [h1, h2, mi1, mi2, s1, s2] then
          some ((((ymd * 24 + digitsToNat [h1, h2]) * 60 + digitsToNat [mi1, mi2]) * 60 +
            digitsToNat [s1, s2] : Nat))
        else none
      | _ => none
    else none
  | _ => none

/-- `new Date(x).getTime()` on a cell value. -/
def jsDateValue : JVal → Option Int
  | .lit (.jnum n) => some n
  | .lit (.jstr s) => jsDateFromChars s.data
  | .lit (.jbool b) => some (if b then 1 else 0)
  | .lit .jnull => some 0
  | _ => none

/-- String interpolation of a cell value. -/
def jsStringOfCell : Option JVal → String
  | none => "undefined"
  | some (.lit l) => jsStringOfLit l
  | some (.jobj _) => "[object Object]"
  | some (.jarr _) => ""

/-- `Number(x)`-style coercion used by the `a - b` comparator. -/
def jsToNumber : JVal → Option Int
  | .lit (.jnum n) => some n
  | .lit (.jstr s) =>
    if s.data.isEmpty then some 0
    else if allDigits s.data then some (digitsToNat s.data) else none
  | .lit (.jbool b) => some (if b then 1 else 0)
  | .lit .jnull => some 0
  | _ => none

def dateCmp (i : Nat) (a b : List JVal) : Option Int := do
  let x ← (a.get? i).bind jsDateValue
  let y ← (b.get? i).bind jsDateValue
  some (x - y)

def timeOfDayCmp (i : Nat) (a b : List JVal) : Option Int := do
  let x ← jsDateFromChars ("0001-01-01T" ++ jsStringOfCell (a.get? i)).data
  let y ← jsDateFromChars ("0001-01-01T" ++ jsStringOfCell (b.get? i)).data
  some (x - y)

def subCmp (i : Nat) (a b : List JVal) : Option Int := do
  let x ← (a.get? i).bind jsToNumber
  let y ← (b.get? i).bind jsToNumber
  some (x - y)

/-- `Array.prototype.sort` (stable, ES2019+): keep the left element when the
comparator is non-positive or `NaN`. -/
def jsSortLe (cmp : List JVal → List JVal → Option Int) (a b : List JVal) : Bool :=
  match cmp a b with
  | some v => decide (v ≤ 0)
  | none => true

def jsSortRows (cmp : List JVal → List JVal → Option Int) (rows : List (List JVal)) :
    List (List JVal) :=
  rows.mergeSort (jsSortLe cmp)

/-- Translation of the time-branch sort (renderChart lines 260-282).  Note:
`columns.find(..)?.ordinal || 0` makes a missing column yield index 0, so
all three `>= 0` guards hold and all three passes run; and the second and
third comparators read `a[dateColumnIndex]`, not their own column — both
exactly as in the source.  The source's subsequent
`timeColumnIndex === -1 && dateColumnIndex === -1` bail-out is unreachable
(`|| 0` never produces `-1`) and is omitted. -/
def timeSortRows (columns : List KustoColumn) (rows : List (List JVal)) : List (List JVal) :=
  let dateColumnIndex : Nat :=
    ((columns.find? (fun col => col.type == "datetime")).map (fun c => c.ordinal)).getD 0
  let timeColumnIndex : Nat :=
    ((columns.find? (fun col => col.type == "timespan")).map (fun c => c.ordinal)).getD 0
  let hourColumnIndex : Nat :=
    ((columns.find? (fun col => col.type == "real")).map (fun c => c.ordinal)).getD 0
  let s1 := if dateColumnIndex ≥ 0 then jsSortRows (dateCmp dateColumnIndex) rows else rows
  let s2 := if timeColumnIndex ≥ 0 then jsSortRows (timeOfDayCmp dateColumnIndex) s1 else s1
  let s3 := if hourColumnIndex ≥ 0 then jsSortRows (subCmp dateColumnIndex) s2 else s2
  s3

/-! Sunburst hierarchy aggregation (`generateSunburstChart`) -/

structure SunburstNode where
  id : String
  label : String
  parent : String
  value : Int
  deriving Repr, DecidableEq

structure SunAgg where
  label : String
  parentLabel : String
  value : Int
  deriving Repr, DecidableEq

/-- `map.set(k, (map.get(k) ?? 0) + v)`: update in place (insertion order
kept), or append a fresh entry. -/
def jsMapAdd (k : String) (v : Int) : List (String × Int) → List (String × Int)
  | [] => [(k, v)]
  | (k2, v2) :: rest =>
    if k2 = k then (k2, v2 + v) :: rest else (k2, v2) :: jsMapAdd k v rest

/-- The level-N map update: an existing entry keeps its first-insertion
label and parent and accumulates the value; a fresh key is appended. -/
def jsMapAddAgg (k lbl par : String) (v : Int) :
    List (String × SunAgg) → List (String × SunAgg)
  | [] => [(k, { label := lbl, parentLabel := par, value := v })]
  | (k2, e) :: rest =>
    if k2 = k then (k2, { e with value := e.value + v }) :: rest
    else (k2, e) :: jsMapAddAgg k lbl par v rest

def toStringCell (row : List JVal) (i : Nat) : String := jsStringOfCell (row.get? i)

/-- weight read from the value column; the weight column of a real chart is
numeric (`long`). -/
def numCell (row : List JVal) (i : Nat) : Int :=
  match row.get? i with
  | some (.lit (.jnum n)) => n
  | _ => 0

/-- The dash-joined stringified path through depth `d`
(`Array(index).fill(0).map((_, i) => row[i].toString()).join('-')`, plus
the node's own label). -/
def pathId (row : List JVal) : Nat → String
  | 0 => toStringCell row 0
  | d + 1 => pathId row d ++ "-" ++ toStringCell row (d + 1)

def sunburstLevel0 (rows : List (List JVal)) (valIdx : Nat) : List SunburstNode :=
  (rows.foldl (fun m row => jsMapAdd (toStringCell row 0) (numCell row valIdx) m) []).map
    (fun kv => { id := kv.1, label := kv.1, parent := "", value := kv.2 })

def sunburstLevelN (rows : List (List JVal)) (index valIdx : Nat) : List SunburstNode :=
  (rows.foldl
      (fun m row =>
        jsMapAddAgg (pathId row index) (toStringCell row index) (pathId row (index - 1))
          (numCell row valIdx) m)
      []).map
    (fun kv =>
      { id := kv.1, label := kv.2.label, parent := kv.2.parentLabel, value := kv.2.value })

/-- Translation of `generateSunburstChart` (lines 344-431), over the primary
table's columns and array-of-arrays rows: skip when fewer than three
columns; otherwise, per non-value column, aggregate into id/label/parent/
value nodes (pushed level by level, as the `columns.forEach` does). -/
def generateSunburstChart (columns : List KustoColumn) (rows : List (List JVal)) :
    Option (List SunburstNode) :=
  if columns.length ≤ 2 then none
  else
    let valueColumnIndex := columns.length - 1
    some
      ((List.range columns.length).foldl
        (fun acc index =>
          if index = valueColumnIndex then acc
          else if index = 0 then acc ++ sunburstLevel0 rows valueColumnIndex
          else acc ++ sunburstLevelN rows index valueColumnIndex)
        [])


/-! Aggregation lemmas: the insertion-ordered maps built by the sunburst
folds are exactly "one node per distinct path, value summed over the rows
sharing it, label/parent from the first such row". -/

def firstKeys (ks : List String) : List String :=
  ks.foldl (fun acc k => if k ∈ acc then acc else acc ++ [k]) []

theorem mem_foldl_firstKeys (ks : List String) :
    ∀ (acc : List String) (x : String),
      (x ∈ ks.foldl (fun acc k => if k ∈ acc then acc else acc ++ [k]) acc) ↔
        x ∈ acc ∨ x ∈ ks := by
  induction ks with
  | nil => intro acc x; simp
  | cons k tl ih =>
    intro acc x
    rw [List.foldl_cons, ih]
    by_cases hk : k ∈ acc
    · rw [if_pos hk]
      simp only [List.mem_cons]
      constructor
      · rintro (h | h)
        · exact Or.inl h
        · exact Or.inr (Or.inr h)
      · rintro (h | h | h)
        · exact Or.inl h
        · exact Or.inl (h ▸ hk)
        · exact Or.inr h
    · rw [if_neg hk]
      simp only [List.mem_append, List.mem_singleton, List.mem_cons]
      tauto

theorem mem_firstKeys (ks : List String) (x : String) : x ∈ firstKeys ks ↔ x ∈ ks := by
  unfold firstKeys
  rw [mem_foldl_firstKeys]
  simp

theorem nodup_foldl_firstKeys (ks : List String) :
    ∀ acc : List String, acc.Nodup →
      (ks.foldl (fun acc k => if k ∈ acc then acc else acc ++ [k]) acc).Nodup := by
  induction ks with
  | nil => intro acc h; exact h
  | cons k tl ih =>
    intro acc h
    rw [List.foldl_cons]
    by_cases hk : k ∈ acc
    · rw [if_pos hk]; exact ih acc h
    · rw [if_neg hk]
      refine ih _ ?_
      rw [List.nodup_append]
      refine ⟨h, List.nodup_singleton k, ?_⟩
      intro x hx hxk
      rw [List.mem_singleton] at hxk
      exact hk (hxk ▸ hx)

theorem nodup_firstKeys (ks : List String) : (firstKeys ks).Nodup :=
  nodup_foldl_firstKeys ks [] (by simp)

theorem firstKeys_concat (ks : List String) (k : String) :
    firstKeys (ks ++ [k]) =
      if k ∈ firstKeys ks then firstKeys ks else firstKeys ks ++ [k] := by
  unfold firstKeys
  rw [List.foldl_append]
  rfl

theorem jsMapAddAgg_absent (k lbl par : String) (v : Int) :
    ∀ m : List (String × SunAgg), k ∉ m.map Prod.fst →
      jsMapAddAgg k lbl par v m = m ++ [(k, { label := lbl, parentLabel := par, value := v })] := by
  intro m
  induction m with
  | nil => intro _; rfl
  | cons kv tl ih =>
    intro h
    obtain ⟨k2, e⟩ := kv
    have h1 : ¬k2 = k := fun he => h (by simp [he])
    have h2 : k ∉ tl.map Prod.fst := fun hm => h (by simp [hm])
    rw [jsMapAddAgg, if_neg h1, ih h2, List.cons_append]

theorem jsMapAddAgg_present (k lbl par : String) (v : Int) (e : SunAgg) :
    ∀ (m1 m2 : List (String × SunAgg)), k ∉ m1.map Prod.fst →
      jsMapAddAgg k lbl par v (m1 ++ (k, e) :: m2) =
        m1 ++ (k, { e with value := e.value + v }) :: m2 := by
  intro m1
  induction m1 with
  | nil => intro m2 _; rw [List.nil_append, jsMapAddAgg, if_pos rfl, List.nil_append]
  | cons kv tl ih =>
    intro m2 h
    obtain ⟨k2, e2⟩ := kv
    have h1 : ¬k2 = k := fun he => h (by simp [he])
    have h2 : k ∉ tl.map Prod.fst := fun hm => h (by simp [hm])
    rw [List.cons_append, jsMapAddAgg, if_neg h1, ih m2 h2, List.cons_append]

/-- Payload the aggregation spec assigns to a path value. -/
def aggEntry {α : Type} (key lbl par : α → String) (w : α → Int) (rows : List α)
    (p : String) : SunAgg :=
  { label :=
      match rows.find? (fun r => key r == p) with
      | some r0 => lbl r0
      | none => ""
    parentLabel :=
      match rows.find? (fun r => key r == p) with
      | some r0 => par r0
      | none => ""
    value := ((rows.filter (fun r => key r == p)).map w).sum }

theorem aggEntry_concat_ne {α : Type} (key lbl par : α → String) (w : α → Int)
    (rows : List α) (last : α) {p : String} (hne : p ≠ key last) :
    aggEntry key lbl par w (rows ++ [last]) p = aggEntry key lbl par w rows p := by
  have hne2 : (key last == p) = false := by
    rw [beq_eq_false_iff_ne]
    exact fun h => hne h.symm
  have hfind : (rows ++ [last]).find? (fun r => key r == p) =
      rows.find? (fun r => key r == p) := by
    rw [List.find?_append]
    have h0 : [last].find? (fun r => key r == p) = none := by
      simp [List.find?_cons, hne2]
    rw [h0, Option.or_none]
  have hfilter : (rows ++ [last]).filter (fun r => key r == p) =
      rows.filter (fun r => key r == p) := by
    rw [List.filter_append]
    have h0 : [last].filter (fun r => key r == p) = [] := by
      simp [List.filter_cons, hne2]
    rw [h0, List.append_nil]
  unfold aggEntry
  rw [hfind, hfilter]

theorem agg_fold_eq {α : Type} (key lbl par : α → String) (w : α → Int) (rows : List α) :
    rows.foldl (fun m r => jsMapAddAgg (key r) (lbl r) (par r) (w r) m) [] =
      (firstKeys (rows.map key)).map (fun p => (p, aggEntry key lbl par w rows p)) := by
  induction rows using List.reverseRecOn with
  | nil => rfl
  | append_singleton rows last ih =>
    rw [List.foldl_append, List.foldl_cons, List.foldl_nil, ih, List.map_append,
      List.map_singleton, firstKeys_concat]
    have hagree : ∀ p, p ≠ key last →
        aggEntry key lbl par w (rows ++ [last]) p = aggEntry key lbl par w rows p :=
      fun p hp => aggEntry_concat_ne key lbl par w rows last hp
    by_cases hk : key last ∈ firstKeys (rows.map key)
    · rw [if_pos hk]
      obtain ⟨l1, l2, hdecomp⟩ := List.append_of_mem hk
      have hnd := nodup_firstKeys (rows.map key)
      rw [hdecomp] at hnd
      rw [List.nodup_append] at hnd
      have hk_not_l1 : key last ∉ l1 := fun hmem => hnd.2.2 hmem (by simp)
      have hk_not_l2 : key last ∉ l2 := (List.nodup_cons.mp hnd.2.1).1
      have hkeymem : key last ∈ rows.map key := (mem_firstKeys _ _).mp hk
      have hfindsome : ∃ r0, rows.find? (fun r => key r == key last) = some r0 := by
        have hsome : (rows.find? (fun r => key r == key last)).isSome = true := by
          rw [List.find?_isSome]
          obtain ⟨r, hr, hkr⟩ := List.mem_map.mp hkeymem
          exact ⟨r, hr, by simp [beq_iff_eq, hkr]⟩
        obtain ⟨r0, hr0⟩ := Option.isSome_iff_exists.mp hsome
        exact ⟨r0, hr0⟩
      obtain ⟨r0, hr0⟩ := hfindsome
      rw [hdecomp]
      rw [List.map_append, List.map_cons]
      rw [jsMapAddAgg_present _ _ _ _ _ _ _ (by simpa [List.map_map] using hk_not_l1)]
      rw [List.map_append, List.map_cons]
      congr 1
      · exact List.map_congr_left fun p hp =>
          congrArg _ (hagree p (fun hpk => hk_not_l1 (hpk ▸ hp))).symm
      · congr 1
        · have hfold : aggEntry key lbl par w rows (key last) =
              { label := lbl r0, parentLabel := par r0,
                value := ((rows.filter (fun r => key r == key last)).map w).sum } := by
            unfold aggEntry
            rw [hr0]
          have hnew : aggEntry key lbl par w (rows ++ [last]) (key last) =
              { label := lbl r0, parentLabel := par r0,
                value := ((rows.filter (fun r => key r == key last)).map w).sum + w last } := by
            unfold aggEntry
            rw [List.find?_append, hr0, List.filter_append]
            have h1 : [last].filter (fun r => key r == key last) = [last] := by simp
            rw [h1, List.map_append, List.map_singleton, List.sum_append, List.sum_singleton]
            rfl
          rw [hfold, hnew]
        · exact List.map_congr_left fun p hp =>
            congrArg _ (hagree p (fun hpk => hk_not_l2 (hpk ▸ hp))).symm
    · rw [if_neg hk]
      have hknotrows : key last ∉ rows.map key := fun h => hk ((mem_firstKeys _ _).mpr h)
      rw [jsMapAddAgg_absent _ _ _ _ _ (by simpa [List.map_map] using hk)]
      rw [List.map_append, List.map_singleton]
      congr 1
      · exact List.map_congr_left fun p hp =>
          congrArg _ (hagree p (fun hpk => hk (hpk ▸ hp))).symm
      · have hfindnone : rows.find? (fun r => key r == key last) = none := by
          rw [List.find?_eq_none]
          intro r hr
          simp only [beq_iff_eq]
          exact fun hkr => hknotrows (List.mem_map.mpr ⟨r, hr, hkr⟩)
        have hfilternone : rows.filter (fun r => key r == key last) = [] := by
          rw [List.filter_eq_nil_iff]
          intro r hr
          simp only [beq_iff_eq]
          exact fun hkr => hknotrows (List.mem_map.mpr ⟨r, hr, hkr⟩)
        have : aggEntry key lbl par w (rows ++ [last]) (key last) =
            { label := lbl last, parentLabel := par last, value := w last } := by
          unfold aggEntry
          rw [List.find?_append, hfindnone, Option.none_or, List.filter_append, hfilternone,
            List.nil_append]
          have h1 : [last].find? (fun r => key r == key last) = some last := by simp
          have h2 : [last].filter (fun r => key r == key last) = [last] := by simp
          rw [h1, h2, List.map_singleton, List.sum_singleton]
        rw [this]

/-- Claim-side sunburst node for a depth-`index` path value `p`: identified
by the dash-joined path, labelled by that depth's cell of the first row on
the path, parented by the dash-joined prior-depth path (root nodes by the
empty string), value summed over the rows sharing the path — the payload
`aggEntry` computes. -/
def specNodeOfKey (rows : List (List JVal)) (index valIdx : Nat) (p : String) : SunburstNode :=
  let e := aggEntry (fun row => pathId row index) (fun row => toStringCell row index)
    (fun row => pathId row (index - 1)) (fun row => numCell row valIdx) rows p
  { id := p
    label := e.label
    parent := if index = 0 then "" else e.parentLabel
    value := e.value }

/-- Claim-side level: one node per distinct depth-`index` path, in first
occurrence order. -/
def specSunburstLevel (rows : List (List JVal)) (index valIdx : Nat) : List SunburstNode :=
  (firstKeys (rows.map (fun r => pathId r index))).map (specNodeOfKey rows index valIdx)

/-- Claim-side sunburst: all columns but the last form the hierarchy path,
the last is the weight; nodes per depth as in `specSunburstLevel`. -/
def specSunburst (columns : List KustoColumn) (rows : List (List JVal)) :
    Option (List SunburstNode) :=
  if columns.length ≤ 2 then none
  else
    some
      ((List.range columns.length).foldl
        (fun acc index =>
          if index = columns.length - 1 then acc
          else acc ++ specSunburstLevel rows index (columns.length - 1))
        [])

theorem sunburstLevelN_eq_spec (rows : List (List JVal)) (index valIdx : Nat)
    (hidx : index ≠ 0) :
    sunburstLevelN rows index valIdx = specSunburstLevel rows index valIdx := by
  unfold sunburstLevelN specSunburstLevel
  rw [agg_fold_eq, List.map_map]
  apply List.map_congr_left
  intro p _
  simp only [Function.comp]
  unfold specNodeOfKey
  dsimp only
  rw [if_neg hidx]

theorem jsMapAdd_proj_step (k lbl par : String) (v : Int) (m : List (String × SunAgg)) :
    jsMapAdd k v (m.map (fun kv => (kv.1, kv.2.value))) =
      (jsMapAddAgg k lbl par v m).map (fun kv => (kv.1, kv.2.value)) := by
  induction m with
  | nil => rfl
  | cons kv tl ih =>
    obtain ⟨k2, e⟩ := kv
    by_cases h : k2 = k
    · simp [jsMapAdd, jsMapAddAgg, h]
    · simp [jsMapAdd, jsMapAddAgg, h, ih]

theorem sunburstLevel0_eq_spec (rows : List (List JVal)) (valIdx : Nat) :
    sunburstLevel0 rows valIdx = specSunburstLevel rows 0 valIdx := by
  unfold sunburstLevel0 specSunburstLevel
  have hb : ∀ (rs : List (List JVal)) (m : List (String × SunAgg)),
      rs.foldl (fun m row => jsMapAdd (toStringCell row 0) (numCell row valIdx) m)
          (m.map (fun kv => (kv.1, kv.2.value))) =
        (rs.foldl
            (fun m row =>
              jsMapAddAgg (pathId row 0) (toStringCell row 0) "" (numCell row valIdx) m)
            m).map (fun kv => (kv.1, kv.2.value)) := by
    intro rs
    induction rs with
    | nil => intro m; rfl
    | cons r tl ih =>
      intro m
      rw [List.foldl_cons, List.foldl_cons,
        show pathId r 0 = toStringCell r 0 from rfl,
        jsMapAdd_proj_step (toStringCell r 0) (toStringCell r 0) "" (numCell r valIdx) m]
      exact ih _
  have hb0 := hb rows []
  rw [show (([] : List (String × SunAgg)).map (fun kv => (kv.1, kv.2.value))) = [] from rfl] at hb0
  rw [hb0, agg_fold_eq, List.map_map, List.map_map]
  apply List.map_congr_left
  intro p hp
  simp only [Function.comp]
  have hp2 : p ∈ rows.map (fun r => pathId r 0) := (mem_firstKeys _ _).mp hp
  have hsome : ∃ r0, rows.find? (fun r => pathId r 0 == p) = some r0 ∧ pathId r0 0 = p := by
    have hs : (rows.find? (fun r => pathId r 0 == p)).isSome = true := by
      rw [List.find?_isSome]
      obtain ⟨r, hr, hkr⟩ := List.mem_map.mp hp2
      exact ⟨r, hr, by simp [hkr]⟩
    obtain ⟨r0, hr0⟩ := Option.isSome_iff_exists.mp hs
    exact ⟨r0, hr0, by simpa using List.find?_some hr0⟩
  obtain ⟨r0, hr0, hpr0⟩ := hsome
  unfold specNodeOfKey aggEntry
  dsimp only
  rw [hr0]
  dsimp only
  rw [show toStringCell r0 0 = pathId r0 0 from rfl, hpr0]
  simp

theorem generateSunburstChart_eq_spec (columns : List KustoColumn) (rows : List (List JVal)) :
    generateSunburstChart columns rows = specSunburst columns rows := by
  unfold generateSunburstChart specSunburst
  dsimp only
  by_cases h : columns.length ≤ 2
  · rw [if_pos h, if_pos h]
  · rw [if_neg h, if_neg h]
    congr 1
    have hgen : ∀ (idxs : List Nat) (acc : List SunburstNode),
        idxs.foldl
            (fun acc index =>
              if index = columns.length - 1 then acc
              else if index = 0 then acc ++ sunburstLevel0 rows (columns.length - 1)
              else acc ++ sunburstLevelN rows index (columns.length - 1)) acc =
          idxs.foldl
            (fun acc index =>
              if index = columns.length - 1 then acc
              else acc ++ specSunburstLevel rows index (columns.length - 1)) acc := by
      intro idxs
      induction idxs with
      | nil => intro acc; rfl
      | cons i tl ih =>
        intro acc
        rw [List.foldl_cons, List.foldl_cons]
        have hstep :
            (if i = columns.length - 1 then acc
             else if i = 0 then acc ++ sunburstLevel0 rows (columns.length - 1)
             else acc ++ sunburstLevelN rows i (columns.length - 1)) =
            (if i = columns.length - 1 then acc
             else acc ++ specSunburstLevel rows i (columns.length - 1)) := by
          by_cases h1 : i = columns.length - 1
          · rw [if_pos h1, if_pos h1]
          · rw [if_neg h1, if_neg h1]
            by_cases h2 : i = 0
            · rw [if_pos h2, h2, sunburstLevel0_eq_spec]
            · rw [if_neg h2, sunburstLevelN_eq_spec rows i _ h2]
        rw [hstep]
        exact ih _
    exact hgen _ []

/-! Claim-side error-classification definitions (C2) -/

/-- Message the original C2 claim's verbatim fallback chain prescribes:
`response.data.error['@message']`, else `response.data.error.message`, else
`response.data.message`, else the non-empty default. -/
def c2ClaimMessage (response : HttpResponse) : String :=
  jsOrStr ((response.data.bind (fun d => d.error)).bind (fun e => e.atMessage))
    (jsOrStr ((response.data.bind (fun d => d.error)).bind (fun e => e.message))
      (jsOrStr (response.data.bind (fun d => d.message)) "Failed to execute query"))

/-- Message chain of the amended claim, as the code computes it:
`response.data.message` is consulted only when `response.data.error` is
absent (falsy). -/
def specErrorMessage (response : HttpResponse) : String :=
  match response.data with
  | some d =>
    match d.error with
    | some e => jsOrStr e.atMessage (jsOrStr e.message "Failed to execute query")
    | none => jsOrStr d.message "Failed to execute query"
  | none => "Failed to execute query"

/-- The claim's ordered status taxonomy (first match wins). -/
def specErrorName (status : Option Int) : String :=
  match status with
  | some s =>
    if s = 400 then "Invalid Query"
    else if s = 401 ∨ s = 403 then "Authentication Error"
    else if s = 408 ∨ s = 504 then "Query Timeout"
    else if s ≥ 500 then "Server Error"
    else "Query Error"
  | none => "Query Error"

theorem jsOrStr_ne_empty (a : Option String) (b : String) (hb : b ≠ "") : jsOrStr a b ≠ "" := by
  unfold jsOrStr
  cases a with
  | none => exact hb
  | some s =>
    dsimp only
    by_cases hs : s = ""
    · rw [if_pos hs]; exact hb
    · rw [if_neg hs]; exact hs

theorem classifyError_withResponse (response : HttpResponse) :
    classifyError (.withResponse response) =
      (specErrorName response.status, specErrorMessage response) := by
  obtain ⟨status, data⟩ := response
  unfold classifyError specErrorName specErrorMessage
  dsimp only
  cases data with
  | none => rfl
  | some d =>
    obtain ⟨derr, dmsg⟩ := d
    dsimp only
    cases derr with
    | some e => rfl
    | none =>
      cases dmsg with
      | none => rfl
      | some m => rfl

theorem specErrorMessage_ne_empty (response : HttpResponse) : specErrorMessage response ≠ "" := by
  obtain ⟨status, data⟩ := response
  unfold specErrorMessage
  dsimp only
  cases data with
  | none => decide
  | some d =>
    obtain ⟨derr, dmsg⟩ := d
    dsimp only
    cases derr with
    | some e =>
      exact jsOrStr_ne_empty _ _ (jsOrStr_ne_empty _ _ (by decide))
    | none => exact jsOrStr_ne_empty _ _ (by decide)

/-! The claims -/

/-- C1: when the cancellation token's promise wins the race against the
client's execute promise, `executeCell` appends no output artifact and the
task is still ended — with an end timestamp, via the `finally` path — with
`success = false`.  (`tokenCancelled` is the value of
`task.token.isCancellationRequested` at the post-race check; a
cancellation that won the race forces the early return regardless.) -/
theorem c1_cancellation_ends_task_without_output (tokenCancelled : Bool) :
    executeCell true RaceOutcome.cancelled tokenCancelled =
      { started := true, outputs := [], ended := true, success := false, endTimestamp := true } :=
  rfl

/-- C2 counterexample: on an HTTP 401 whose `response.data.error` is present
but carries no message while `response.data.message` is `"boom"`, the code
appends the default message, not `"boom"` — the claim's fallback chain
(`@message` → `error.message` → `data.message` → default) prescribes
`"boom"` here, so the claim as stated is false. -/
def c2Response : HttpResponse :=
  { status := some 401,
    data := some { error := some { atMessage := none, message := none }, message := some "boom" } }

theorem c2_message_chain_counterexample :
    (executeCell true (.rejected (.withResponse c2Response)) false).outputs =
      [CellOutput.errorOutput "Authentication Error" "Failed to execute query"] ∧
    c2ClaimMessage c2Response = "boom" ∧
    ("Failed to execute query" : String) ≠ "boom" := by
  refine ⟨rfl, rfl, by decide⟩

/-- C2 (amended): a rejected execution appends exactly one error artifact;
its name follows the ordered status taxonomy (400 → Invalid Query, 401/403
→ Authentication Error, 408/504 → Query Timeout, other ≥ 500 → Server
Error), and its message is `response.data.error['@message']`, else
`response.data.error.message`, else the default when `response.data.error`
is present — `response.data.message` is consulted only when it is absent —
and the message is never empty.  In particular a 401 with no
`response.data` yields Authentication Error with the non-empty default. -/
theorem c2_http_error_classification (response : HttpResponse) :
    (executeCell true (.rejected (.withResponse response)) false).outputs =
      [CellOutput.errorOutput (specErrorName response.status) (specErrorMessage response)] ∧
    specErrorMessage response ≠ "" ∧
    (response.status = some 400 → specErrorName response.status = "Invalid Query") ∧
    ((response.status = some 401 ∨ response.status = some 403) →
      specErrorName response.status = "Authentication Error") ∧
    ((response.status = some 408 ∨ response.status = some 504) →
      specErrorName response.status = "Query Timeout") ∧
    (∀ s : Int, response.status = some s → s ≥ 500 → s ≠ 504 →
      specErrorName response.status = "Server Error") ∧
    (response.data = none → response.status = some 401 →
      (executeCell true (.rejected (.withResponse response)) false).outputs =
        [CellOutput.errorOutput "Authentication Error" "Failed to execute query"]) := by
  have hout : (executeCell true (.rejected (.withResponse response)) false).outputs =
      [CellOutput.errorOutput (specErrorName response.status) (specErrorMessage response)] := by
    show [CellOutput.errorOutput (classifyError (.withResponse response)).1
        (classifyError (.withResponse response)).2] = _
    rw [classifyError_withResponse]
  refine ⟨hout, specErrorMessage_ne_empty response, ?_, ?_, ?_, ?_, ?_⟩
  · intro h
    rw [h]
    decide
  · rintro (h | h) <;> rw [h] <;> decide
  · rintro (h | h) <;> rw [h] <;> decide
  · intro s hs h500 h504
    rw [hs]
    unfold specErrorName
    dsimp only
    rw [if_neg (by omega), if_neg (by omega), if_neg (by omega), if_pos (by omega)]
  · intro hdata hstatus
    rw [hout, hstatus]
    unfold specErrorMessage
    rw [hdata]
    rfl

theorem c2_http_error_classification_witness :
    (executeCell true (.rejected (.withResponse { status := some 401, data := none }))
        false).outputs =
      [CellOutput.errorOutput "Authentication Error" "Failed to execute query"] :=
  (c2_http_error_classification { status := some 401, data := none }).2.2.2.2.2.2 rfl rfl

/-- C3 counterexample: when the engine already pre-separated
`primaryResults` (here holding a different table), a `PrimaryResult`-named
table is still dropped from `tables`/`tableNames`, but its rows do NOT
appear in `primaryResults` — the reconstruction only runs when
`primaryResults` is empty, so the claim as stated is false. -/
def c3PrimaryTable : KustoTable :=
  { name := "PrimaryResult", columns := [], rows := [[.lit (.jstr "dropped-row")]] }

def c3OtherTable : KustoTable :=
  { name := "Other", columns := [], rows := [[.lit (.jstr "other-row")]] }

def c3Response : KustoResponseDataSet :=
  { tables := [c3PrimaryTable], tableNames := ["PrimaryResult"],
    primaryResults := [c3OtherTable] }

theorem c3_preseparated_counterexample :
    (normalizeResults c3Response).tables = [] ∧
    (normalizeResults c3Response).tableNames = [] ∧
    (normalizeResults c3Response).primaryResults = [c3OtherTable] ∧
    ∀ t ∈ (normalizeResults c3Response).primaryResults, t.rows ≠ c3PrimaryTable.rows := by
  refine ⟨rfl, rfl, rfl, ?_⟩
  decide

/-- C3 (amended): after normalization no `PrimaryResult`-named table (and
no such name) survives in `tables`/`tableNames`; and whenever
`primaryResults` was initially empty, every `PrimaryResult`-named table of
`tables` (rows included) moves into `primaryResults`. -/
theorem c3_primary_result_normalization (r : KustoResponseDataSet) :
    (∀ t ∈ (normalizeResults r).tables, t.name ≠ "PrimaryResult") ∧
    (∀ n ∈ (normalizeResults r).tableNames, n ≠ "PrimaryResult") ∧
    (r.primaryResults = [] →
      ∀ t ∈ r.tables, t.name = "PrimaryResult" → t ∈ (normalizeResults r).primaryResults) := by
  refine ⟨?_, ?_, ?_⟩
  · intro t ht
    unfold normalizeResults at ht
    simp only [List.mem_filter] at ht
    simpa using ht.2
  · intro n hn
    unfold normalizeResults at hn
    simp only [List.mem_filter] at hn
    simpa using hn.2
  · intro hempty t ht hname
    unfold normalizeResults
    simp only [hempty, List.isEmpty_nil, if_pos]
    simp only [List.mem_filter]
    exact ⟨ht, by simpa using hname⟩

def c3wResponse : KustoResponseDataSet :=
  { tables := [c3PrimaryTable], tableNames := ["PrimaryResult"], primaryResults := [] }

theorem c3_primary_result_normalization_witness :
    c3PrimaryTable ∈ (normalizeResults c3wResponse).primaryResults :=
  (c3_primary_result_normalization c3wResponse).2.2 rfl c3PrimaryTable (by decide) rfl

/-- C4: for every ConnectionInfo `x` — its runtime object in any property
insertion order — decoding the encoded token succeeds and yields the same
connection (the same properties as `x`), and encoding is stable under
permuted insertion order: any two insertion orders produce the identical
token. -/
theorem c4_encode_decode_roundtrip_and_stability (x : ConnInfo) (o1 o2 : Obj)
    (h1 : o1.Perm (toObj x)) (h2 : o2.Perm (toObj x)) :
    (∃ o', decodeConnectionInfo (encodeConnectionInfo o1) = some o' ∧ o'.Perm (toObj x)) ∧
    encodeConnectionInfo o1 = encodeConnectionInfo o2 := by
  have hnd1 : (o1.map Prod.fst).Nodup :=
    ((h1.map Prod.fst).nodup_iff).mpr (toObj_keys_nodup x)
  have hnd2 : (o2.map Prod.fst).Nodup :=
    ((h2.map Prod.fst).nodup_iff).mpr (toObj_keys_nodup x)
  refine ⟨⟨sortObj o1, decode_encodeConnectionInfo o1, (sortObj_perm o1).trans h1⟩, ?_⟩
  rw [encodeConnectionInfo_eq_of_perm h1 hnd1, encodeConnectionInfo_eq_of_perm h2 hnd2]

def c4x : ConnInfo :=
  .azAuth "https://c1.kusto.windows.net" "Cluster One" "https://c1.kusto.windows.net" (some "db1")

def c4obj1 : Obj :=
  [("type", "azAuth"), ("cluster", "https://c1.kusto.windows.net"), ("database", "db1"),
   ("displayName", "Cluster One"), ("id", "https://c1.kusto.windows.net")]

def c4obj2 : Obj :=
  [("database", "db1"), ("id", "https://c1.kusto.windows.net"), ("type", "azAuth"),
   ("displayName", "Cluster One"), ("cluster", "https://c1.kusto.windows.net")]

theorem c4_encode_decode_roundtrip_and_stability_witness :
    (∃ o', decodeConnectionInfo (encodeConnectionInfo c4obj1) = some o' ∧ o'.Perm (toObj c4x)) ∧
    encodeConnectionInfo c4obj1 = encodeConnectionInfo c4obj2 :=
  c4_encode_decode_roundtrip_and_stability c4x c4obj1 c4obj2 (by decide) (by decide)

/-- C5 counterexample: a token produced by a non-canonical encoder (keys
unsorted) is not rejected — `decodeConnectionInfo` succeeds and silently
returns the canonicalized object, even though re-encoding the decoded value
does not reproduce the input token.  The decoder performs no comparison and
has no `MalformedConnectionToken` failure, so the claim as stated is
false. -/
def c5UnsortedObj : Obj := [("type", "appInsights"), ("id", "a"), ("displayName", "b")]

def c5SortedObj : Obj := [("displayName", "b"), ("id", "a"), ("type", "appInsights")]

def c5Token : String := stringToBase64 (String.mk (stringifyFlatObj c5UnsortedObj))

theorem stringToBase64_inj {s1 s2 : String} (h : stringToBase64 s1 = stringToBase64 s2) :
    s1 = s2 := by
  have h1 := base64ToString_stringToBase64 s1
  rw [h, base64ToString_stringToBase64 s2] at h1
  exact (Option.some.inj h1).symm

theorem c5_sortObj_eval : sortObj c5UnsortedObj = c5SortedObj := by
  apply sorted_perm_nodupkeys_eq
  · exact (sortObj_perm c5UnsortedObj).trans (by decide)
  · exact sortObj_sorted c5UnsortedObj
  · decide
  · exact ((sortObj_perm c5UnsortedObj).map Prod.fst).nodup_iff.mpr (by decide)

theorem c5_noncanonical_token_accepted :
    decodeConnectionInfo c5Token = some (sortObj c5UnsortedObj) ∧
    encodeConnectionInfo (sortObj c5UnsortedObj) ≠ c5Token := by
  constructor
  · exact decodeConnectionInfo_stringify c5UnsortedObj
  · rw [c5_sortObj_eval]
    intro hEnc
    have hsort2 : sortObj c5SortedObj = c5SortedObj := List.mergeSort_of_sorted (by decide)
    rw [show encodeConnectionInfo c5SortedObj =
        stringToBase64 (String.mk (stringifyFlatObj (sortObj c5SortedObj))) from rfl,
      hsort2] at hEnc
    have hs := stringToBase64_inj hEnc
    have h2 : stringifyFlatObj c5SortedObj = stringifyFlatObj c5UnsortedObj :=
      congrArg String.data hs
    exact absurd h2 (by decide)

/-- C5 (amended): `decodeConnectionInfo` re-encodes the decoded value and
re-parses it, so the returned object always has canonically sorted
properties — but it never compares against the input token: a token from a
non-canonical encoder is accepted and silently normalized rather than
rejected. -/
theorem c5_decode_canonicalizes (o : Obj) :
    decodeConnectionInfo (stringToBase64 (String.mk (stringifyFlatObj o))) =
      some (sortObj o) :=
  decodeConnectionInfo_stringify o

theorem getControllerId_eq_iff (c1 c2 : ConnInfo) (nb : String) :
    getControllerId c1 nb = getControllerId c2 nb ↔
      encodeConnectionInfo (toObj c1) = encodeConnectionInfo (toObj c2) := by
  unfold getControllerId
  constructor
  · intro h
    have hd : (nb ++ "_").data ++ (encodeConnectionInfo (toObj c1)).data =
        (nb ++ "_").data ++ (encodeConnectionInfo (toObj c2)).data := by
      have := congrArg String.data h
      simpa [String.data_append, List.append_assoc] using this
    exact congrArg String.mk (List.append_cancel_left hd)
  · intro h
    rw [h]

theorem connectionChangedHandler_removed (conn : ConnInfo) (reg : List KernelPerConnection) :
    connectionChangedHandler "removed" conn reg =
      (reg.filter (fun c => c.connection.id != conn.id),
       reg.filter (fun c => c.connection.id == conn.id)) := by
  unfold connectionChangedHandler
  rw [if_neg (by decide)]

/-- C9: an `added` connection-change event leaves the registry unchanged
and disposes nothing; on a removal, every controller whose key embeds the
removed connection (its `getControllerId` equals the one built from the
removed connection for its notebook type, i.e. its connection has the same
encoded token) is disposed and deleted from the live registry, and
afterwards no live controller remains for that connection. -/
theorem c9_connection_removed_teardown (registry : List KernelPerConnection) (conn : ConnInfo) :
    connectionChangedHandler "added" conn registry = (registry, []) ∧
    (∀ c ∈ registry,
      getControllerId c.connection c.notebookType = getControllerId conn c.notebookType →
        c ∈ (connectionChangedHandler "removed" conn registry).2 ∧
        c ∉ (connectionChangedHandler "removed" conn registry).1) ∧
    (∀ c ∈ (connectionChangedHandler "removed" conn registry).1,
      getControllerId c.connection c.notebookType ≠ getControllerId conn c.notebookType) := by
  refine ⟨?_, ?_, ?_⟩
  · unfold connectionChangedHandler
    rw [if_pos rfl]
  · intro c hc hkey
    have henc := (getControllerId_eq_iff _ _ _).mp hkey
    have hid : c.connection.id = conn.id := encode_toObj_id_inj henc
    rw [connectionChangedHandler_removed]
    constructor
    · simp only [List.mem_filter]
      exact ⟨hc, by simp [hid]⟩
    · simp only [List.mem_filter]
      intro hmem
      have h2 := hmem.2
      simp [hid] at h2
  · intro c hc
    rw [connectionChangedHandler_removed] at hc
    simp only [List.mem_filter] at hc
    intro hkey
    have henc := (getControllerId_eq_iff _ _ _).mp hkey
    have hid := encode_toObj_id_inj henc
    have h2 := hc.2
    simp [hid] at h2

def c9conn : ConnInfo := .appInsights "app1" "App One"

def c9ctrl : KernelPerConnection := { notebookType := "kusto-notebook", connection := c9conn }

theorem c9_connection_removed_teardown_witness :
    c9ctrl ∈ (connectionChangedHandler "removed" c9conn [c9ctrl]).2 ∧
    c9ctrl ∉ (connectionChangedHandler "removed" c9conn [c9ctrl]).1 :=
  (c9_connection_removed_teardown [c9ctrl] c9conn).2.1 c9ctrl (by decide) rfl

theorem vizIfChain_eq_spec (data : JVal) :
    (if data.truthy = false then none
     else if data.getField "Visualization" = some (.jstr "piechart") then
       some (ChartType.pie (titleOf data))
     else if data.getField "Visualization" = some (.jstr "barchart") then
       some (.bar (titleOf data) "h")
     else if data.getField "Visualization" = some (.jstr "timechart") ∨
         data.getField "Visualization" = some (.jstr "linechart") then
       some (.time (titleOf data))
     else if data.getField "Visualization" = some (.jstr "columnchart") then
       some (.bar (titleOf data) "v")
     else none) = specVizDecision data := by
  unfold specVizDecision
  by_cases ht : data.truthy = false
  · rw [if_pos ht, if_pos ht]
  · rw [if_neg ht, if_neg ht]
    cases hf : data.getField "Visualization" with
    | none => simp
    | some l =>
      cases l with
      | jnull => simp
      | jbool b => simp
      | jnum n => simp
      | jstr s =>
        by_cases h1 : s = "piechart"
        · subst h1; simp
        · by_cases h2 : s = "barchart"
          · subst h2; simp
          · by_cases h3 : s = "timechart"
            · subst h3; simp
            · by_cases h4 : s = "linechart"
              · subst h4; simp
              · by_cases h5 : s = "columnchart"
                · subst h5; simp
                · simp [h1, h2, h3, h4, h5]

/-- C6 (amended): whenever the `@ExtendedProperties` table's first row
passes the signal guard (ordinal 1 equals `"Visualization"`, or ordinal 0
is a string containing `"Visualization"`), `getChartType` returns exactly
the claim's pipeline: parse the ordinal-2 cell as JSON, falling back to
ordinal 0 when that fails or yields a falsy value, then map the metadata's
`Visualization` field — `piechart`→pie, `barchart`→bar(horizontal),
`columnchart`→bar(vertical), `timechart`/`linechart`→time, anything else →
none — with the title from the `Title` field (empty when absent/falsy). -/
theorem c6_guarded_chart_inference (results : KustoResponseDataSet) (t : KustoTable)
    (row0 : List JVal) (rest : List (List JVal))
    (hfind : results.tables.find? (fun tb => tb.name == "@ExtendedProperties") = some t)
    (hrows : t.rows = row0 :: rest)
    (hguard : row0.get? 1 = some (.lit (.jstr "Visualization")) ∨
      includesViz (row0.get? 0) = true) :
    getChartType results = (specChartMetadata row0).bind specVizDecision := by
  have hlen : ¬results.tables.length = 0 := by
    intro h0
    rw [List.length_eq_zero] at h0
    rw [h0] at hfind
    simp at hfind
  unfold getChartType
  rw [if_neg hlen, hfind]
  dsimp only
  rw [hrows]
  dsimp only
  rw [if_neg (by
    rintro ⟨hg1, hg2⟩
    rcases hguard with h | h
    · exact hg1 h
    · rw [h] at hg2
      exact Bool.noConfusion hg2)]
  unfold specChartMetadata
  cases hp2 : jsonParseCell (row0.get? 2) with
  | none =>
    dsimp only
    cases hp0 : jsonParseCell (row0.get? 0) with
    | none => rfl
    | some w =>
      dsimp only
      rw [Option.some_bind]
      exact vizIfChain_eq_spec w
  | some v =>
    dsimp only
    by_cases htv : v.truthy = true
    · rw [if_pos htv]
      dsimp only
      rw [Option.some_bind]
      exact vizIfChain_eq_spec v
    · rw [if_neg htv]
      cases hp0 : jsonParseCell (row0.get? 0) with
      | none =>
        dsimp only
        rw [Option.some_bind]
        exact vizIfChain_eq_spec v
      | some w =>
        dsimp only
        rw [Option.some_bind]
        exact vizIfChain_eq_spec w

def c6wRow : List JVal :=
  [.lit (.jnum 1), .lit (.jstr "Visualization"),
   .lit (.jstr (String.mk (stringifyFlatObj [("Visualization", "piechart"), ("Title", "T")])))]

def c6wResponse : KustoResponseDataSet :=
  { tables := [{ name := "@ExtendedProperties", columns := [], rows := [c6wRow] }],
    tableNames := ["@ExtendedProperties"], primaryResults := [] }

theorem c6_guarded_chart_inference_witness :
    getChartType c6wResponse = (specChartMetadata c6wRow).bind specVizDecision :=
  c6_guarded_chart_inference c6wResponse
    { name := "@ExtendedProperties", columns := [], rows := [c6wRow] } c6wRow []
    (by decide) rfl (by decide)

/-- C6 counterexample: a first row whose ordinal-2 cell is exactly the
well-formed metadata `Visualization=piechart, Title=T` — which the claim's
mapping sends to `pie "T"` — yields no chart decision, because ordinal 1 is
not `"Visualization"` and ordinal 0 does not contain it: the claim as
stated (which has no such guard) is false. -/
def c6Row : List JVal :=
  [.lit (.jstr ""), .lit (.jstr ""),
   .lit (.jstr (String.mk (stringifyFlatObj [("Visualization", "piechart"), ("Title", "T")])))]

def c6Response : KustoResponseDataSet :=
  { tables := [{ name := "@ExtendedProperties", columns := [], rows := [c6Row] }],
    tableNames := ["@ExtendedProperties"], primaryResults := [] }

theorem c6_unguarded_metadata_ignored :
    getChartType c6Response = none ∧
    ((jsonParseCell (c6Row.get? 2)).bind specVizDecision = some (ChartType.pie "T")) ∧
    (none : Option ChartType) ≠ some (ChartType.pie "T") := by
  refine ⟨by decide, ?_, by decide⟩
  rw [show c6Row.get? 2 =
      some (.lit (.jstr (String.mk (stringifyFlatObj [("Visualization", "piechart"),
        ("Title", "T")])))) from rfl]
  rw [show jsonParseCell (some (.lit (.jstr (String.mk (stringifyFlatObj
      [("Visualization", "piechart"), ("Title", "T")]))))) =
      jsonParse (String.mk (stringifyFlatObj [("Visualization", "piechart"), ("Title", "T")]))
      from rfl]
  rw [jsonParse_stringifyFlatObj]
  decide

/-- C10: when the first `@ExtendedProperties` row carries neither the value
`"Visualization"` at ordinal 1 nor a string containing `"Visualization"` at
ordinal 0, `getChartType` returns no decision — whatever sits at ordinal 2,
even well-formed chart metadata. -/
theorem c10_guard_blocks_inference (results : KustoResponseDataSet) (t : KustoTable)
    (row0 : List JVal) (rest : List (List JVal))
    (hfind : results.tables.find? (fun tb => tb.name == "@ExtendedProperties") = some t)
    (hrows : t.rows = row0 :: rest)
    (hg1 : row0.get? 1 ≠ some (.lit (.jstr "Visualization")))
    (hg2 : includesViz (row0.get? 0) = false) :
    getChartType results = none := by
  have hlen : ¬results.tables.length = 0 := by
    intro h0
    rw [List.length_eq_zero] at h0
    rw [h0] at hfind
    simp at hfind
  unfold getChartType
  rw [if_neg hlen, hfind]
  dsimp only
  rw [hrows]
  dsimp only
  rw [if_pos ⟨hg1, hg2⟩]

def c10Row : List JVal :=
  [.lit (.jnum 7), .lit (.jstr "NotTheSignal"),
   .lit (.jstr (String.mk (stringifyFlatObj [("Visualization", "piechart"), ("Title", "T")])))]

def c10Response : KustoResponseDataSet :=
  { tables := [{ name := "@ExtendedProperties", columns := [], rows := [c10Row] }],
    tableNames := ["@ExtendedProperties"], primaryResults := [] }

theorem c10_guard_blocks_inference_witness : getChartType c10Response = none :=
  c10_guard_blocks_inference c10Response
    { name := "@ExtendedProperties", columns := [], rows := [c10Row] } c10Row []
    (by decide) rfl (by decide) (by decide)

/-- C7 failing input (code bug): a primary table shaped
`[name:string, duration:timespan, count:long]` — no datetime column.  The
claim (and the spec) requires the rows to be sorted ascending by the
timespan column as same-day time-of-day, i.e. the 01:00:00 row before the
02:00:00 row.  In the code, `columns.find(..)?.ordinal || 0` turns the
missing datetime column into index 0 and the unreachable `=== -1` check
shows that was not the intent; moreover the timespan and hour passes also
compare `a[dateColumnIndex]`.  All three passes therefore compare the
string column at index 0 (every comparison `NaN`), and the rows stay in
their original, unsorted order. -/
def c7Columns : List KustoColumn :=
  [{ name := "name", type := "string", ordinal := 0 },
   { name := "duration", type := "timespan", ordinal := 1 },
   { name := "count", type := "long", ordinal := 2 }]

def c7RowLate : List JVal := [.lit (.jstr "zz"), .lit (.jstr "02:00:00"), .lit (.jnum 1)]

def c7RowEarly : List JVal := [.lit (.jstr "aa"), .lit (.jstr "01:00:00"), .lit (.jnum 2)]

theorem c7_time_sort_ignores_timespan_column :
    timeSortRows c7Columns [c7RowLate, c7RowEarly] = [c7RowLate, c7RowEarly] ∧
    [c7RowLate, c7RowEarly] ≠ [c7RowEarly, c7RowLate] := by
  constructor
  · rw [show timeSortRows c7Columns [c7RowLate, c7RowEarly] =
        jsSortRows (subCmp 0)
          (jsSortRows (timeOfDayCmp 0) (jsSortRows (dateCmp 0) [c7RowLate, c7RowEarly]))
        from rfl]
    rw [show jsSortRows (dateCmp 0) [c7RowLate, c7RowEarly] = [c7RowLate, c7RowEarly] from
      List.mergeSort_of_sorted (by decide)]
    rw [show jsSortRows (timeOfDayCmp 0) [c7RowLate, c7RowEarly] = [c7RowLate, c7RowEarly] from
      List.mergeSort_of_sorted (by decide)]
    exact List.mergeSort_of_sorted (by decide)
  · decide

/-- C8: `generateSunburstChart` equals the claim's aggregation on every
input — per non-value column depth, one node per distinct dash-joined path
(depth 0: the stringified first column), value summed over the rows sharing
that path, label that depth's cell and parent the prior-depth path of the
first such row — and on the claim's concrete example
`[region:string, sub:string, count:long]` with rows
`("A","x",3), ("A","y",2), ("B","x",5)` it produces root `A` with value 5,
root `B` with value 5, and depth-1 nodes `A-x` (3) and `A-y` (2) parented
by `A` (plus `B-x` (5) parented by `B`). -/
def c8Columns : List KustoColumn :=
  [{ name := "region", type := "string", ordinal := 0 },
   { name := "sub", type := "string", ordinal := 1 },
   { name := "count", type := "long", ordinal := 2 }]

def c8Rows : List (List JVal) :=
  [[.lit (.jstr "A"), .lit (.jstr "x"), .lit (.jnum 3)],
   [.lit (.jstr "A"), .lit (.jstr "y"), .lit (.jnum 2)],
   [.lit (.jstr "B"), .lit (.jstr "x"), .lit (.jnum 5)]]

theorem c8_sunburst_aggregates_shared_path_weights :
    (∀ (columns : List KustoColumn) (rows : List (List JVal)),
      generateSunburstChart columns rows = specSunburst columns rows) ∧
    generateSunburstChart c8Columns c8Rows =
      some
        [{ id := "A", label := "A", parent := "", value := 5 },
         { id := "B", label := "B", parent := "", value := 5 },
         { id := "A-x", label := "x", parent := "A", value := 3 },
         { id := "A-y", label := "y", parent := "A", value := 2 },
         { id := "B-x", label := "x", parent := "B", value := 5 }] := by
  refine ⟨generateSunburstChart_eq_spec, ?_⟩
  decide
end KustoExt
